import Mathlib

/-!
Verification of the AgLens (ArchLens) extraction-and-merge engine against its
natural-language specification.

The development shallowly embeds the TypeScript sources:
  * `src/lib/design.ts` (normalization, empty canvas/extract, status cycle, reorder),
  * `src/lib/extract.ts` (canonicalize, tokenSet, similarity, isNearDuplicate,
    parseAssistantExtract),
  * `src/store/useAppStore.ts` (the canvas/store operations, applyExtract,
    export/import payloads),
  * `src/types/design.ts` (the data model).

Modelling conventions:
  * JavaScript strings are Lean `String`s; character-level work happens on
    `List Char`.  `toLowerCase` is modelled by `Char.toLower` (ASCII), and the
    regex class `\s` by the ASCII whitespace characters, which is faithful for
    the inputs the claims are about.
  * JavaScript `undefined`/optional fields become `Option`; the JS truthiness
    test on an optional string (`if (x)`) is `strTruthy` (false for `undefined`
    and for the empty string).
  * JS `Set` becomes a duplicate-free list in insertion order; only membership
    and cardinality of the sets are ever used.
  * Numeric scores (`0.4`, `0.72`) are modelled as the exact rationals `2/5`
    and `18/25`; the similarity values compared against them are rationals
    with small denominators, so the float/rational distinction is immaterial
    for the properties proved here.
  * `crypto.randomUUID()` and `new Date().toISOString()` are nondeterministic;
    operations receive the generated ids/timestamps as explicit parameters
    (an id supply `gen : Nat → String` for `applyExtract`).
-/

namespace AgLens

/-- Whitespace class used by the source's regexes (`\s`) and `String.trim`,
restricted to ASCII. -/
def isWsChar (c : Char) : Bool :=
  c = ' ' || c = '\t' || c = '\n' || c = '\r' || c = '\x0b' || c = '\x0c'

/-- Remove whitespace from both ends of a character list (JS `String.trim`). -/
def trimChars (l : List Char) : List Char :=
  ((l.dropWhile isWsChar).reverse.dropWhile isWsChar).reverse

/-- Split a character list on whitespace, dropping empty fragments.  The
accumulator holds the current word reversed. -/
def wordsAux : List Char → List Char → List (List Char)
  | [], acc => if acc.isEmpty then [] else [acc.reverse]
  | c :: rest, acc =>
    if isWsChar c then
      if acc.isEmpty then wordsAux rest [] else acc.reverse :: wordsAux rest []
    else
      wordsAux rest (c :: acc)

/-- The maximal whitespace-free words of a character list. -/
def wordsWS (l : List Char) : List (List Char) := wordsAux l []

/-- Interleave words with single spaces (the effect of `replace(/\s+/g, " ")`
followed by `trim` on already-replaced text). -/
def joinWords : List (List Char) → List Char
  | [] => []
  | [w] => w
  | w :: rest => w ++ ' ' :: joinWords rest

/-- Does `pat` match a prefix of `hay`? -/
def leadMatch : List Char → List Char → Bool
  | [], _ => true
  | _ :: _, [] => false
  | p :: ps, h :: hs => p = h && leadMatch ps hs

/-- Index of the first occurrence of `pat` in `hay` (JS `indexOf`). -/
def findSubIdx (hay pat : List Char) : Option Nat :=
  if leadMatch pat hay then some 0
  else
    match hay with
    | [] => none
    | _ :: t => (findSubIdx t pat).map (· + 1)

/-- JS `String.prototype.includes`. -/
def strIncludes (hay sub : String) : Bool :=
  (findSubIdx hay.toList sub.toList).isSome

/-- Deduplicate keeping first occurrences (the contents of a JS `Set` built by
insertion). -/
def dedupAux : List String → List String → List String
  | [], _ => []
  | x :: xs, seen =>
    if seen.contains x then dedupAux xs seen else x :: dedupAux xs (x :: seen)

def dedupFirst (l : List String) : List String := dedupAux l []

/-- Source `normalize` (src/lib/design.ts): trim then lowercase. -/
def normalize (s : String) : String :=
  String.mk ((trimChars s.toList).map Char.toLower)

/-- Source `canonicalize` (src/lib/extract.ts): normalize, map every character
outside `[a-z0-9\s]` to a space, collapse whitespace runs, trim. -/
def canonicalize (s : String) : String :=
  let kept := (normalize s).toList.map fun c =>
    if ('a' ≤ c ∧ c ≤ 'z') ∨ ('0' ≤ c ∧ c ≤ '9') ∨ isWsChar c then c else ' '
  String.mk (joinWords (wordsWS kept))

/-- Unigram tokens of a string: canonicalize, split on spaces, keep tokens
longer than two characters (before deduplication). -/
def rawTokens (s : String) : List String :=
  ((wordsWS (canonicalize s).toList).map String.mk).filter (·.length > 2)

/-- Adjacent-pair bigrams (concatenation without separator). -/
def bigramsOf : List String → List String
  | [] => []
  | [_] => []
  | a :: b :: rest => (a ++ b) :: bigramsOf (b :: rest)

/-- Source `tokenSet`: the set of unigrams (length > 2) plus adjacent-pair
bigrams, as a duplicate-free list in insertion order. -/
def tokenSet (s : String) : List String :=
  dedupFirst (rawTokens s ++ bigramsOf (rawTokens s))

/-- Number of elements of `a` that also occur in `b` (`a` duplicate-free, so
this is the size of the set intersection). -/
def interCount (a b : List String) : Nat :=
  (a.filter fun t => b.contains t).length

/-- Size of the set union of two duplicate-free lists. -/
def unionCount (a b : List String) : Nat :=
  (dedupFirst (a ++ b)).length

/-- Source `similarity`: Jaccard similarity over the token sets, 0 when either
set is empty. -/
def similarity (a b : String) : ℚ :=
  let aSet := tokenSet a
  let bSet := tokenSet b
  if aSet.length = 0 ∨ bSet.length = 0 then 0
  else
    let inter := interCount aSet bSet
    let union := unionCount aSet bSet
    if union = 0 then 0 else (inter : ℚ) / (union : ℚ)

/-- Executable form of `similarity a b ≥ 0.72` (the threshold is the exact
rational `18/25`; the comparison is cross-multiplied so that the kernel can
evaluate it — `simTestB_iff` proves it equivalent to the rational
comparison). -/
def simTestB (a b : String) : Bool :=
  let aSet := tokenSet a
  let bSet := tokenSet b
  ¬ aSet.length = 0 ∧ ¬ bSet.length = 0 ∧
    18 * unionCount aSet bSet ≤ 25 * interCount aSet bSet

/-- Executable form of the partial-overlap test
`intersection >= 2 && minSize > 0 && intersection / minSize >= 0.4`
(`0.4 = 2/5`, cross-multiplied; `ratioTestB_iff` bridges to the rational
comparison). -/
def ratioTestB (inter minSize : Nat) : Bool :=
  2 ≤ inter ∧ 0 < minSize ∧ 2 * minSize ≤ 5 * inter

/-- Whitespace-free compaction of an (already canonical) string
(`replace(/\s+/g, "")`). -/
def compactStr (s : String) : String :=
  String.mk (s.toList.filter fun c => ¬ isWsChar c)

/-- The containment short-circuit block of `isNearDuplicate`: equal canonical
forms, one containing the other, or the compacted forms containing one
another. -/
def nearDupShortCircuit (aCanon bCanon : String) : Bool :=
  let aCompact := compactStr aCanon
  let bCompact := compactStr bCanon
  aCanon = bCanon ||
    strIncludes aCanon bCanon || strIncludes bCanon aCanon ||
    strIncludes aCompact bCompact || strIncludes bCompact aCompact

/-- Source `isNearDuplicate` (src/lib/extract.ts): empty-canon guard, then the
containment short-circuits, then the partial-overlap test
(intersection ≥ 2 and intersection/min ≥ 0.4), then full Jaccard ≥ 0.72. -/
def isNearDuplicate (a b : String) : Bool :=
  let aCanon := canonicalize a
  let bCanon := canonicalize b
  if aCanon = "" ∨ bCanon = "" then false
  else if nearDupShortCircuit aCanon bCanon then true
  else
    let aSet := tokenSet aCanon
    let bSet := tokenSet bCanon
    let inter := interCount aSet bSet
    let minSize := min aSet.length bSet.length
    if ratioTestB inter minSize then true
    else simTestB aCanon bCanon

/-- The unigram-only token set of a string (no bigrams), as used by the
specification's wording of the near-duplicate policy. -/
def unigramSet (s : String) : List String := dedupFirst (rawTokens s)

/-- The spec's wording of the non-short-circuit branch of `isNearDuplicate`
(claim C4), stated verbatim for comparison with the source: "true exactly when
the unigram-only intersection count is at least 2 and intersection divided by
min(|setA|, |setB|) is at least 0.4, or the full Jaccard score is at least
0.72". -/
def claimCondC4 (a b : String) : Prop :=
  let aCanon := canonicalize a
  let bCanon := canonicalize b
  let aSet := tokenSet aCanon
  let bSet := tokenSet bCanon
  let uni := interCount (unigramSet aCanon) (unigramSet bCanon)
  (2 ≤ uni ∧
      (2 : ℚ) / 5 ≤ (uni : ℚ) / (min aSet.length bSet.length : ℚ)) ∨
    (18 : ℚ) / 25 ≤ similarity aCanon bCanon

/-! ## Data model (src/types/design.ts) -/

inductive OptionStatus where
  | considering | selected | rejected | finished
deriving DecidableEq, Repr

inductive ConstraintSource where
  | conversation | code | external
deriving DecidableEq, Repr

inductive QuestionStatus where
  | qOpen | qResolved
deriving DecidableEq, Repr

inductive RefKind where
  | code_snippet | url | paste
deriving DecidableEq, Repr

inductive SpaceStatus where
  | exploring | converging | crystallized
deriving DecidableEq, Repr

inductive Role where
  | user | assistant
deriving DecidableEq, Repr

inductive ElemKind where
  | option | decision | constraint | open_question
deriving DecidableEq, Repr

structure ElementRef where
  kind : ElemKind
  id : String
deriving DecidableEq, Repr

/-- A `MessageRef` (`{message_id}`) is modelled by its `message_id`. -/
structure Message where
  id : String
  role : Role
  content : String
  timestamp : String
  extracted_elements : List ElementRef
deriving DecidableEq, Repr

/-- Source `Option` entity (a branch); named `OptionItem` because `Option` is
taken by Lean. -/
structure OptionItem where
  id : String
  title : String
  description : String
  status : OptionStatus
  rejection_reason : Option String := none
  finish_reason : Option String := none
  branch_score : Option Nat := none
  source_messages : List String := []
deriving DecidableEq, Repr

structure Decision where
  id : String
  title : String
  reasoning : String
  trade_offs : String
  option_id : Option String := none
  source_messages : List String := []
deriving DecidableEq, Repr

structure Constraint where
  id : String
  description : String
  source : ConstraintSource
  decision_id : Option String := none
  source_messages : List String := []
deriving DecidableEq, Repr

structure OpenQuestion where
  id : String
  question : String
  context : String
  status : QuestionStatus
  decision_id : Option String := none
deriving DecidableEq, Repr

/-- Source `Reference`; the `type` field is named `kind` (`type` is reserved). -/
structure Reference where
  id : String
  kind : RefKind
  content : String
  label : String
  decision_id : Option String := none
deriving DecidableEq, Repr

structure DesignCanvas where
  problem_statement : String
  active_option_id : Option String := none
  options : List OptionItem
  decisions : List Decision
  constraints : List Constraint
  open_questions : List OpenQuestion
  references : List Reference
deriving DecidableEq, Repr

structure Task where
  id : String
  title : String
  description : String
  context : String
  files_components : List String
  acceptance_criteria : List String
  depends_on : List String
  related_decisions : List String
deriving DecidableEq, Repr

structure Outputs where
  design_doc : Option String := none
  tasks : Option (List Task) := none
  generated_at : Option String := none
deriving DecidableEq, Repr

/-- Source `UsageRecord`; the `at` field is named `atIso` (`at` is reserved)
and the floating-point `cost_usd` is a rational. -/
structure UsageRecord where
  atIso : String
  model : String
  input_tokens : Nat
  output_tokens : Nat
  estimated : Bool
  cost_usd : ℚ
deriving DecidableEq, Repr

structure ExtractionFailure where
  atIso : String
  message_id : String
  reason : String
  raw_excerpt : String
deriving DecidableEq, Repr

structure DesignSpace where
  id : String
  title : String
  created_at : String
  updated_at : String
  status : SpaceStatus
  conversation : List Message
  design_canvas : DesignCanvas
  outputs : Outputs
  usage_history : List UsageRecord
  extraction_failures : Nat
  extraction_failure_log : List ExtractionFailure
deriving DecidableEq, Repr

/-! ## Extraction wire format (src/types/design.ts `DesignExtract`)

The nine fields that `createEmptyExtract` (src/lib/design.ts) populates are
plain lists: the store's merge accesses them only through the
`{...createEmptyExtract(), ...incoming}` spread (or with `?? []`), which makes
an absent field behave exactly like an empty one, so absence and `[]` are
conflated.  The six lifecycle fields (`update_constraints`, `finish_branches`,
`delete_decisions`, `delete_constraints`, `delete_open_questions`,
`set_branch_todos`) are `Option`-wrapped so that the model can distinguish a
present-and-empty array from an absent property: `createEmptyExtract` omits
them even though the `DesignExtract` interface declares them required. -/

structure NewOptionE where
  title : String
  description : String
  status : OptionStatus
deriving DecidableEq, Repr

structure UpdateOptionE where
  id : String
  description : String
deriving DecidableEq, Repr

structure StatusChangeE where
  option_title : String
  new_status : OptionStatus
  reason : Option String := none
deriving DecidableEq, Repr

structure NewDecisionE where
  title : String
  reasoning : String
  trade_offs : String
deriving DecidableEq, Repr

structure UpdateDecisionE where
  id : String
  reasoning : Option String := none
  trade_offs : Option String := none
  replace : Option Bool := none
deriving DecidableEq, Repr

structure NewConstraintE where
  description : String
  source : ConstraintSource
deriving DecidableEq, Repr

structure UpdateConstraintE where
  id : String
  description : String
deriving DecidableEq, Repr

structure NewQuestionE where
  question : String
  context : String
deriving DecidableEq, Repr

structure ResolvedQuestionE where
  question : String
  resolution : Option String := none
deriving DecidableEq, Repr

structure FinishBranchE where
  option_title : String
  reason : Option String := none
deriving DecidableEq, Repr

structure IdOnlyE where
  id : String
deriving DecidableEq, Repr

structure BranchTodoE where
  option_id : String
  todos : String
deriving DecidableEq, Repr

structure DesignExtract where
  problem_statement_update : Option String := none
  new_options : List NewOptionE := []
  update_options : List UpdateOptionE := []
  option_status_changes : List StatusChangeE := []
  new_decisions : List NewDecisionE := []
  update_decisions : List UpdateDecisionE := []
  new_constraints : List NewConstraintE := []
  new_open_questions : List NewQuestionE := []
  resolved_questions : List ResolvedQuestionE := []
  update_constraints : Option (List UpdateConstraintE) := none
  finish_branches : Option (List FinishBranchE) := none
  delete_decisions : Option (List IdOnlyE) := none
  delete_constraints : Option (List IdOnlyE) := none
  delete_open_questions : Option (List IdOnlyE) := none
  set_branch_todos : Option (List BranchTodoE) := none
deriving DecidableEq, Repr

/-- Source `createEmptyExtract` (src/lib/design.ts): populates the nine
merge fields with `null`/`[]` and — unlike the `DesignExtract` interface and
the prompt's canonical empty shape — omits the six lifecycle fields, so they
are absent (`none`) in the produced object. -/
def createEmptyExtract : DesignExtract :=
  { problem_statement_update := none
    new_options := []
    update_options := []
    option_status_changes := []
    new_decisions := []
    update_decisions := []
    new_constraints := []
    new_open_questions := []
    resolved_questions := [] }

/-- The spread `{...createEmptyExtract(), ...parsed}`: every field of the base
object is overridden by the corresponding present field of `parsed`.  In this
model every record field is total, so the spread copies all of them. -/
def mergeOntoEmpty (p : DesignExtract) : DesignExtract :=
  { problem_statement_update := p.problem_statement_update
    new_options := p.new_options
    update_options := p.update_options
    option_status_changes := p.option_status_changes
    new_decisions := p.new_decisions
    update_decisions := p.update_decisions
    new_constraints := p.new_constraints
    new_open_questions := p.new_open_questions
    resolved_questions := p.resolved_questions
    update_constraints := p.update_constraints
    finish_branches := p.finish_branches
    delete_decisions := p.delete_decisions
    delete_constraints := p.delete_constraints
    delete_open_questions := p.delete_open_questions
    set_branch_todos := p.set_branch_todos }

/-! ## Extraction parser (src/lib/extract.ts `parseAssistantExtract`)

The regex `/<design_extract>\s*([\s\S]*?)\s*<\/design_extract>/i` matches at
the first case-insensitive occurrence of the start tag that is followed by an
end tag; the lazy group makes the end tag the first one after the start tag,
and the surrounding `\s*` strip whitespace from both ends of the captured
group.  `raw.replace(match[0], "")` removes the first literal occurrence of
the matched block, which is the match itself (an earlier literal occurrence
would contain an earlier case-insensitive start tag).  `JSON.parse` plus the
cast to `DesignExtract` is an abstract deserializer parameter
`dec : String → Except String DesignExtract`; the `catch` branch captures the
thrown message. -/

structure TagBlock where
  pre : List Char
  inner : List Char
  post : List Char
deriving DecidableEq, Repr

structure ExtractParseResult where
  text : String
  extract : DesignExtract
  parse_error : Option String := none
  raw_extract : String
deriving DecidableEq, Repr

def startTagChars : List Char := "<design_extract>".toList

def endTagChars : List Char := "</design_extract>".toList

/-- Locate the tagged block: the first case-insensitive start tag and the
first case-insensitive end tag after it.  `inner` is the raw text between the
tags (whitespace not yet stripped). -/
def findExtractBlock (raw : List Char) : Option TagBlock :=
  let low := raw.map Char.toLower
  match findSubIdx low startTagChars with
  | none => none
  | some i =>
    match findSubIdx (low.drop (i + 16)) endTagChars with
    | none => none
    | some k =>
      some { pre := raw.take i
             inner := (raw.drop (i + 16)).take k
             post := (raw.drop (i + 16)).drop (k + 17) }

/-- Source `parseAssistantExtract`. -/
def parseAssistantExtract (dec : String → Except String DesignExtract)
    (raw : String) : ExtractParseResult :=
  match findExtractBlock raw.toList with
  | none =>
    { text := String.mk (trimChars raw.toList)
      extract := createEmptyExtract
      parse_error := none
      raw_extract := "" }
  | some b =>
    let visibleText := String.mk (trimChars (b.pre ++ b.post))
    let rawExtract := String.mk (trimChars b.inner)
    match dec rawExtract with
    | .ok parsed =>
      { text := visibleText
        extract := mergeOntoEmpty parsed
        parse_error := none
        raw_extract := rawExtract }
    | .error msg =>
      { text := visibleText
        extract := createEmptyExtract
        parse_error := some msg
        raw_extract := rawExtract }

/-- Source `stripExtractTail`: drop everything from the first case-insensitive
start tag onward, then trim the end. -/
def stripExtractTail (raw : String) : String :=
  match findSubIdx (raw.toList.map Char.toLower) startTagChars with
  | none => String.mk (raw.toList.reverse.dropWhile isWsChar).reverse
  | some i => String.mk ((raw.toList.take i).reverse.dropWhile isWsChar).reverse

/-! ## Canvas helpers (src/lib/design.ts and src/store/useAppStore.ts) -/

def trimStr (s : String) : String := String.mk (trimChars s.toList)

/-- JS truthiness of a `string | undefined` value: false for `undefined` and
for the empty string. -/
def strTruthy : Option String → Bool
  | none => false
  | some s => ¬ s = ""

/-- Source `statusCycle`: considering → selected → rejected → considering
(also mapping `finished` back to considering via the final branch). -/
def statusCycle : OptionStatus → OptionStatus
  | .considering => .selected
  | .selected => .rejected
  | _ => .considering

/-- Source `ensureActiveOption`: keep the current active id when it is truthy
and names an existing option, else fall back to the first option's id (or
`undefined` when there are no options).  Note: no status restriction. -/
def ensureActiveOption (active : Option String) (options : List OptionItem) :
    Option String :=
  match active with
  | some a => if a ≠ "" ∧ options.any (fun o => o.id == a) then some a
              else options.head?.map (·.id)
  | none => options.head?.map (·.id)

/-- Source `reorder` (src/lib/design.ts): swap the element at `index` with its
up/down neighbour; out-of-range indices (including the `-1` produced by a
failed `findIndex`) leave the list unchanged. -/
inductive Dir where
  | up | down
deriving DecidableEq, Repr

/-- Swap the elements at two (in-range) positions. -/
def swapIdx (l : List α) (i j : Nat) : List α :=
  match l.get? i, l.get? j with
  | some x, some y => (l.set i y).set j x
  | _, _ => l

/-- The neighbour index: `direction === "up" ? index - 1 : index + 1`. -/
def reorderTarget (index : Int) (dir : Dir) : Int :=
  if dir = Dir.up then index - 1 else index + 1

def reorder (items : List α) (index : Int) (dir : Dir) : List α :=
  if index < 0 ∨ reorderTarget index dir < 0 ∨ (items.length : Int) ≤ index ∨
      (items.length : Int) ≤ reorderTarget index dir then items
  else swapIdx items index.toNat (reorderTarget index dir).toNat

/-- JS `findIndex`: position of the first match, `-1` when there is none. -/
def findIdxInt (p : α → Bool) (l : List α) : Int :=
  match l.findIdx? p with
  | none => -1
  | some i => (i : Int)

/-- JS `splice(k, 0, x)`: insert at position `k`, clamped to the end. -/
def insertAtIdx : List α → Nat → α → List α
  | l, 0, a => a :: l
  | [], _ + 1, a => [a]
  | h :: t, n + 1, a => h :: insertAtIdx t n a

/-- Source `moveById`: remove the dragged element and re-insert it at the
target element's (pre-removal) position; missing ids or equal positions are a
no-op. -/
def moveById (gid : α → String) (items : List α) (draggedId targetId : String) :
    List α :=
  if findIdxInt (fun x => gid x == draggedId) items < 0 ∨
      findIdxInt (fun x => gid x == targetId) items < 0 ∨
      findIdxInt (fun x => gid x == draggedId) items =
        findIdxInt (fun x => gid x == targetId) items then items
  else
    match items.get? (findIdxInt (fun x => gid x == draggedId) items).toNat with
    | none => items
    | some moved =>
      insertAtIdx (items.eraseIdx (findIdxInt (fun x => gid x == draggedId) items).toNat)
        (findIdxInt (fun x => gid x == targetId) items).toNat moved

/-- Source `compactTitle`: first line of the trimmed text, at most 80
characters, falling back to "Imported item". -/
def compactTitle (text : String) : String :=
  let s := ((trimChars text.toList).takeWhile (fun c => c ≠ '\n')).take 80
  if s.isEmpty then "Imported item" else String.mk s

/-- The `find`-then-mutate pattern of the merge loops: apply `f` to the first
element satisfying `p` (the element `Array.prototype.find` returns). -/
def updateFirst (p : α → Bool) (f : α → α) : List α → List α
  | [] => []
  | x :: xs => if p x then f x :: xs else x :: updateFirst p f xs

/-- Append-don't-replace semantics: `old ? old + "\n" + add : add`. -/
def appendField (old add : String) : String :=
  if old = "" then add else old ++ "\n" ++ add

/-- The attachment target for new constraints/questions/references: the most
recently created decision belonging to the active option (note: `undefined`
active matches decisions with `undefined` `option_id`), else the most recent
decision overall, else unlinked. -/
def lastDecisionTarget (c : DesignCanvas) : Option String :=
  match c.decisions.reverse.find? (fun d => d.option_id == c.active_option_id) with
  | some d => some d.id
  | none => c.decisions.reverse.head?.map (·.id)

/-! ## Manual canvas operations (src/store/useAppStore.ts)

Each store action updates the space via `updateSpace` (which also bumps
`updated_at`); the functions below are the transformations each action applies
to `space.design_canvas`, which is the state all the invariant claims are
about.  Edits (`update*`) take `Partial<T>` patches applied by object spread
(`{ ...item, ...patch }`): a field is either absent from the patch (the item's
value is kept) or present — possibly with an explicit `undefined`, which the
spread writes through.  For the reference fields (`Decision.option_id`,
`decision_id` on constraints/questions/references, of type
`string | undefined`) a patch entry is therefore modelled as
`Option (Option String)`: `none` = field absent, `some none` = present as
`undefined` (the UI's unlink), `some (some a)` = present with the id `a` (the
UI's decision reparent).  `id` (and `source_messages`) are omitted from the
patches: no caller in the repository ever passes them and the ids are the
stable keys all the claims quantify over. -/

structure OptionPatch where
  title : Option String := none
  description : Option String := none
  status : Option OptionStatus := none
  rejection_reason : Option String := none
  finish_reason : Option String := none
  branch_score : Option Nat := none
deriving DecidableEq, Repr

def applyOptionPatch (p : OptionPatch) (o : OptionItem) : OptionItem :=
  { o with
    title := p.title.getD o.title
    description := p.description.getD o.description
    status := p.status.getD o.status
    rejection_reason := (p.rejection_reason.map some).getD o.rejection_reason
    finish_reason := (p.finish_reason.map some).getD o.finish_reason
    branch_score := (p.branch_score.map some).getD o.branch_score }

structure DecisionPatch where
  title : Option String := none
  reasoning : Option String := none
  trade_offs : Option String := none
  option_id : Option (Option String) := none
deriving DecidableEq, Repr

def applyDecisionPatch (p : DecisionPatch) (d : Decision) : Decision :=
  { d with
    title := p.title.getD d.title
    reasoning := p.reasoning.getD d.reasoning
    trade_offs := p.trade_offs.getD d.trade_offs
    option_id := p.option_id.getD d.option_id }

structure ConstraintPatch where
  description : Option String := none
  source : Option ConstraintSource := none
  decision_id : Option (Option String) := none
deriving DecidableEq, Repr

def applyConstraintPatch (p : ConstraintPatch) (x : Constraint) : Constraint :=
  { x with
    description := p.description.getD x.description
    source := p.source.getD x.source
    decision_id := p.decision_id.getD x.decision_id }

structure QuestionPatch where
  question : Option String := none
  context : Option String := none
  status : Option QuestionStatus := none
  decision_id : Option (Option String) := none
deriving DecidableEq, Repr

def applyQuestionPatch (p : QuestionPatch) (q : OpenQuestion) : OpenQuestion :=
  { q with
    question := p.question.getD q.question
    context := p.context.getD q.context
    status := p.status.getD q.status
    decision_id := p.decision_id.getD q.decision_id }

structure ReferencePatch where
  kind : Option RefKind := none
  label : Option String := none
  content : Option String := none
  decision_id : Option (Option String) := none
deriving DecidableEq, Repr

def applyReferencePatch (p : ReferencePatch) (r : Reference) : Reference :=
  { r with
    kind := p.kind.getD r.kind
    label := p.label.getD r.label
    content := p.content.getD r.content
    decision_id := p.decision_id.getD r.decision_id }

def setProblemStatementCanvas (content : String) (c : DesignCanvas) : DesignCanvas :=
  { c with problem_statement := content }

def setActiveOptionCanvas (optionId : String) (c : DesignCanvas) : DesignCanvas :=
  { c with active_option_id :=
      if c.options.any (fun o => o.id == optionId) then some optionId
      else c.active_option_id }

def clearActiveOptionCanvas (c : DesignCanvas) : DesignCanvas :=
  { c with active_option_id := none }

def addOptionCanvas (fresh : String) (c : DesignCanvas) : DesignCanvas :=
  let options := c.options ++
    [{ id := fresh, title := "New option", description := "",
       status := .considering, branch_score := some 5, source_messages := [] }]
  { c with options, active_option_id := ensureActiveOption c.active_option_id options }

def updateOptionCanvas (id : String) (p : OptionPatch) (c : DesignCanvas) :
    DesignCanvas :=
  { c with options := c.options.map fun o =>
      if o.id == id then applyOptionPatch p o else o }

/-- Source `deleteOption`: filter the option out, re-derive the active option,
clear `option_id` on decisions that referenced it, and (via `removedSet`,
which only holds the option id) clear truthy `decision_id`s equal to that id
on constraints/questions/references. -/
def deleteOptionCanvas (id : String) (c : DesignCanvas) : DesignCanvas :=
  let options := c.options.filter fun o => !(o.id == id)
  { c with
    options
    active_option_id := ensureActiveOption
      (if c.active_option_id == some id then none else c.active_option_id) options
    decisions := c.decisions.map fun d =>
      if d.option_id == some id then { d with option_id := none } else d
    constraints := c.constraints.map fun x =>
      if strTruthy x.decision_id ∧ x.decision_id == some id then
        { x with decision_id := none } else x
    open_questions := c.open_questions.map fun q =>
      if strTruthy q.decision_id ∧ q.decision_id == some id then
        { q with decision_id := none } else q
    references := c.references.map fun r =>
      if strTruthy r.decision_id ∧ r.decision_id == some id then
        { r with decision_id := none } else r }

def reorderOptionCanvas (id : String) (dir : Dir) (c : DesignCanvas) : DesignCanvas :=
  { c with options := reorder c.options (findIdxInt (fun o => o.id == id) c.options) dir }

def moveOptionCanvas (draggedId targetId : String) (c : DesignCanvas) : DesignCanvas :=
  { c with options := moveById (·.id) c.options draggedId targetId }

/-- The first active-id adjustment of `cycleOptionStatus`:
`if (target?.status === "selected") activeOptionId = target.id`. -/
def cycleActive1 (target : Option OptionItem) (current : Option String) :
    Option String :=
  match target with
  | some t => if t.status = .selected then some t.id else current
  | none => current

/-- The second active-id adjustment of `cycleOptionStatus`:
`if (target?.status === "rejected" && activeOptionId === target.id)
   activeOptionId = options.find((o) => o.status !== "rejected")?.id`. -/
def cycleActive2 (options : List OptionItem) (target : Option OptionItem)
    (a1 : Option String) : Option String :=
  match target with
  | some t =>
    if t.status = .rejected ∧ a1 == some t.id then
      (options.find? fun o => !(o.status == OptionStatus.rejected)).map (·.id)
    else a1
  | none => a1

def cycleOptionStatusCanvas (id : String) (c : DesignCanvas) : DesignCanvas :=
  let options := c.options.map fun o =>
    if o.id == id then { o with status := statusCycle o.status } else o
  let target := options.find? fun o => o.id == id
  { c with options
           active_option_id :=
             cycleActive2 options target (cycleActive1 target c.active_option_id) }

def promoteToDecisionCanvas (freshDecisionId optionId : String) (c : DesignCanvas) :
    DesignCanvas :=
  match c.options.find? (fun o => o.id == optionId) with
  | none => c
  | some option =>
    let options := c.options.map fun o =>
      if o.id == optionId then { o with status := .selected } else o
    { c with
      options
      active_option_id := some optionId
      decisions := c.decisions ++
        [{ id := freshDecisionId
           title := if option.title = "" then "New decision" else option.title
           reasoning := option.description
           trade_offs := ""
           option_id := some optionId
           source_messages := [] }] }

/-- The active-id re-derivation of `rejectOption`: when the rejected option
was active, fall back to the first non-rejected option. -/
def rejectActive (options : List OptionItem) (current : Option String)
    (optionId : String) : Option String :=
  if current == some optionId then
    (options.find? fun o => !(o.status == OptionStatus.rejected)).map (·.id)
  else current

def rejectOptionCanvas (optionId : String) (c : DesignCanvas) : DesignCanvas :=
  let options := c.options.map fun o =>
    if o.id == optionId then { o with status := .rejected } else o
  { c with
    options
    active_option_id := rejectActive options c.active_option_id optionId }

def addDecisionCanvas (fresh : String) (c : DesignCanvas) : DesignCanvas :=
  { c with decisions := c.decisions ++
      [{ id := fresh, title := "New decision", reasoning := "", trade_offs := "",
         option_id := c.active_option_id, source_messages := [] }] }

def updateDecisionCanvas (id : String) (p : DecisionPatch) (c : DesignCanvas) :
    DesignCanvas :=
  { c with decisions := c.decisions.map fun d =>
      if d.id == id then applyDecisionPatch p d else d }

def deleteDecisionCanvas (id : String) (c : DesignCanvas) : DesignCanvas :=
  { c with
    decisions := c.decisions.filter fun d => !(d.id == id)
    constraints := c.constraints.map fun x =>
      if x.decision_id == some id then { x with decision_id := none } else x
    open_questions := c.open_questions.map fun q =>
      if q.decision_id == some id then { q with decision_id := none } else q
    references := c.references.map fun r =>
      if r.decision_id == some id then { r with decision_id := none } else r }

def reorderDecisionCanvas (id : String) (dir : Dir) (c : DesignCanvas) : DesignCanvas :=
  { c with decisions := reorder c.decisions (findIdxInt (fun d => d.id == id) c.decisions) dir }

def moveDecisionCanvas (draggedId targetId : String) (c : DesignCanvas) : DesignCanvas :=
  { c with decisions := moveById (·.id) c.decisions draggedId targetId }

/-- Source `reopenDecision`: remove the decision and recreate it as a fresh
considering option that becomes active.  (The removed decision's dependants
are not cleared.) -/
def reopenDecisionCanvas (freshOptionId id : String) (c : DesignCanvas) :
    DesignCanvas :=
  match c.decisions.find? (fun d => d.id == id) with
  | none => c
  | some decision =>
    { c with
      decisions := c.decisions.filter fun d => !(d.id == id)
      options := c.options ++
        [{ id := freshOptionId, title := decision.title,
           description := decision.reasoning, status := .considering,
           branch_score := some 5, source_messages := decision.source_messages }]
      active_option_id := some freshOptionId }

def addConstraintCanvas (fresh : String) (c : DesignCanvas) : DesignCanvas :=
  { c with constraints := c.constraints ++
      [{ id := fresh, description := "New constraint", source := .conversation,
         decision_id := lastDecisionTarget c, source_messages := [] }] }

def updateConstraintCanvas (id : String) (p : ConstraintPatch) (c : DesignCanvas) :
    DesignCanvas :=
  { c with constraints := c.constraints.map fun x =>
      if x.id == id then applyConstraintPatch p x else x }

def deleteConstraintCanvas (id : String) (c : DesignCanvas) : DesignCanvas :=
  { c with constraints := c.constraints.filter fun x => !(x.id == id) }

def reorderConstraintCanvas (id : String) (dir : Dir) (c : DesignCanvas) : DesignCanvas :=
  { c with constraints :=
      reorder c.constraints (findIdxInt (fun x => x.id == id) c.constraints) dir }

def moveConstraintCanvas (draggedId targetId : String) (c : DesignCanvas) : DesignCanvas :=
  { c with constraints := moveById (·.id) c.constraints draggedId targetId }

def addQuestionCanvas (fresh : String) (c : DesignCanvas) : DesignCanvas :=
  { c with open_questions := c.open_questions ++
      [{ id := fresh, question := "New question", context := "",
         status := .qOpen, decision_id := lastDecisionTarget c }] }

def updateQuestionCanvas (id : String) (p : QuestionPatch) (c : DesignCanvas) :
    DesignCanvas :=
  { c with open_questions := c.open_questions.map fun q =>
      if q.id == id then applyQuestionPatch p q else q }

def deleteQuestionCanvas (id : String) (c : DesignCanvas) : DesignCanvas :=
  { c with open_questions := c.open_questions.filter fun q => !(q.id == id) }

def reorderQuestionCanvas (id : String) (dir : Dir) (c : DesignCanvas) : DesignCanvas :=
  { c with open_questions :=
      reorder c.open_questions (findIdxInt (fun q => q.id == id) c.open_questions) dir }

def moveQuestionCanvas (draggedId targetId : String) (c : DesignCanvas) : DesignCanvas :=
  { c with open_questions := moveById (·.id) c.open_questions draggedId targetId }

def toggleQuestionStatusCanvas (id : String) (c : DesignCanvas) : DesignCanvas :=
  { c with open_questions := c.open_questions.map fun q =>
      if q.id == id then
        { q with status := if q.status = .qOpen then .qResolved else .qOpen }
      else q }

def addReferenceCanvas (fresh : String) (kind : RefKind) (label content : String)
    (c : DesignCanvas) : DesignCanvas :=
  { c with references := c.references ++
      [{ id := fresh, kind, label, content, decision_id := lastDecisionTarget c }] }

def updateReferenceCanvas (id : String) (p : ReferencePatch) (c : DesignCanvas) :
    DesignCanvas :=
  { c with references := c.references.map fun r =>
      if r.id == id then applyReferencePatch p r else r }

def deleteReferenceCanvas (id : String) (c : DesignCanvas) : DesignCanvas :=
  { c with references := c.references.filter fun r => !(r.id == id) }

def reorderReferenceCanvas (id : String) (dir : Dir) (c : DesignCanvas) : DesignCanvas :=
  { c with references :=
      reorder c.references (findIdxInt (fun r => r.id == id) c.references) dir }

def moveReferenceCanvas (draggedId targetId : String) (c : DesignCanvas) : DesignCanvas :=
  { c with references := moveById (·.id) c.references draggedId targetId }

inductive LinkKind where
  | constraint | question | reference
deriving DecidableEq, Repr

/-- Source `linkToDecision`: set `decision_id := decisionId` on the matching
item.  Note: the target decision's existence is not checked. -/
def linkToDecisionCanvas (kind : LinkKind) (itemId decisionId : String)
    (c : DesignCanvas) : DesignCanvas :=
  match kind with
  | .constraint =>
    { c with constraints := c.constraints.map fun x =>
        if x.id == itemId then { x with decision_id := some decisionId } else x }
  | .question =>
    { c with open_questions := c.open_questions.map fun q =>
        if q.id == itemId then { q with decision_id := some decisionId } else q }
  | .reference =>
    { c with references := c.references.map fun r =>
        if r.id == itemId then { r with decision_id := some decisionId } else r }

inductive CanvasDropTarget where
  | problem_statement | options | decisions | constraints | open_questions | references
deriving DecidableEq, Repr

/-- Source `dropTextToCanvas` (the canvas part). -/
def dropTextToCanvasCanvas (fresh : String) (target : CanvasDropTarget)
    (text : String) (sourceMessageId : Option String) (c : DesignCanvas) :
    DesignCanvas :=
  let dropped := trimStr text
  if dropped = "" then c
  else
    let sourceRef : List String :=
      match sourceMessageId with
      | some m => if m = "" then [] else [m]
      | none => []
    match target with
    | .problem_statement =>
      { c with problem_statement :=
          if c.problem_statement = "" then dropped
          else c.problem_statement ++ "\n" ++ dropped }
    | .options =>
      let options := c.options ++
        [{ id := fresh, title := compactTitle dropped, description := dropped,
           status := .considering, branch_score := some 5,
           source_messages := sourceRef }]
      { c with options,
               active_option_id := ensureActiveOption c.active_option_id options }
    | .decisions =>
      { c with decisions := c.decisions ++
          [{ id := fresh, title := compactTitle dropped, reasoning := dropped,
             trade_offs := "", option_id := c.active_option_id,
             source_messages := sourceRef }] }
    | .constraints =>
      { c with constraints := c.constraints ++
          [{ id := fresh, description := dropped, source := .conversation,
             decision_id := lastDecisionTarget c, source_messages := sourceRef }] }
    | .open_questions =>
      { c with open_questions := c.open_questions ++
          [{ id := fresh, question := compactTitle dropped, context := dropped,
             status := .qOpen, decision_id := lastDecisionTarget c }] }
    | .references =>
      { c with references := c.references ++
          [{ id := fresh, kind := .paste, label := compactTitle dropped,
             content := dropped, decision_id := lastDecisionTarget c }] }

/-! ## The merge engine (src/store/useAppStore.ts `applyExtract`)

The canvas part of `applyExtract` is modelled stage by stage; `newId()` calls
are served by the id supply `gen` through a counter threaded in program
order.  The message-tagging side effect (`extracted_elements`) and the
space-level telemetry live outside the canvas and are not modelled. -/

def applyPsu (psu : Option String) (c : DesignCanvas) : DesignCanvas :=
  match psu with
  | some s => if trimStr s = "" then c else { c with problem_statement := trimStr s }
  | none => c

def newOptionsFold (gen : Nat → String) (msgId : String) :
    List NewOptionE → DesignCanvas × Nat → DesignCanvas × Nat
  | [], s => s
  | o :: rest, (c, n) =>
    if c.options.any (fun item => isNearDuplicate item.title o.title) then
      newOptionsFold gen msgId rest (c, n)
    else
      let oid := gen n
      newOptionsFold gen msgId rest
        ({ c with
            options := c.options ++
              [{ id := oid, title := o.title, description := o.description,
                 status := .considering, branch_score := some 5,
                 source_messages := [msgId] }]
            active_option_id :=
              if strTruthy c.active_option_id then c.active_option_id
              else some oid },
          n + 1)

def updOptionsFold : List UpdateOptionE → DesignCanvas → DesignCanvas
  | [], c => c
  | u :: rest, c =>
    let c' :=
      match c.options.find? (fun item => item.id == u.id) with
      | some _ =>
        if trimStr u.description = "" then c
        else
          let options := updateFirst (fun item => item.id == u.id)
            (fun t => { t with
                description := appendField t.description (trimStr u.description) })
            c.options
          { c with options }
      | none => c
    updOptionsFold rest c'

def oscFold (msgId : String) : List StatusChangeE → DesignCanvas → DesignCanvas
  | [], c => c
  | ch :: rest, c =>
    let c' :=
      match c.options.find? (fun item => isNearDuplicate item.title ch.option_title) with
      | none => c
      | some t =>
        let options := updateFirst
          (fun item => isNearDuplicate item.title ch.option_title)
          (fun o => { o with
              status := ch.new_status
              rejection_reason :=
                match ch.reason with
                | some r => if r = "" then o.rejection_reason else some r
                | none => o.rejection_reason
              source_messages := o.source_messages ++ [msgId] })
          c.options
        { c with options
                 active_option_id :=
                   if ch.new_status = .selected then some t.id
                   else c.active_option_id }
    oscFold msgId rest c'

def newDecisionsFold (gen : Nat → String) (msgId : String) :
    List NewDecisionE → DesignCanvas × Nat → DesignCanvas × Nat
  | [], s => s
  | d :: rest, (c, n) =>
    if c.decisions.any (fun item => isNearDuplicate item.title d.title) then
      newDecisionsFold gen msgId rest (c, n)
    else
      newDecisionsFold gen msgId rest
        ({ c with decisions := c.decisions ++
            [{ id := gen n, title := d.title, reasoning := d.reasoning,
               trade_offs := d.trade_offs, option_id := c.active_option_id,
               source_messages := [msgId] }] },
          n + 1)

def updDecisionsFold : List UpdateDecisionE → DesignCanvas → DesignCanvas
  | [], c => c
  | u :: rest, c =>
    let c' :=
      match c.decisions.find? (fun item => item.id == u.id) with
      | some _ =>
        let decisions := updateFirst (fun item => item.id == u.id)
          (fun t =>
            let t1 :=
              match u.reasoning with
              | some r =>
                if trimStr r = "" then t
                else { t with reasoning := appendField t.reasoning (trimStr r) }
              | none => t
            match u.trade_offs with
            | some w =>
              if trimStr w = "" then t1
              else { t1 with trade_offs := appendField t1.trade_offs (trimStr w) }
            | none => t1)
          c.decisions
        { c with decisions }
      | none => c
    updDecisionsFold rest c'

def newConstraintsFold (gen : Nat → String) (msgId : String) :
    List NewConstraintE → DesignCanvas × Nat → DesignCanvas × Nat
  | [], s => s
  | x :: rest, (c, n) =>
    if c.constraints.any (fun item => isNearDuplicate item.description x.description) then
      newConstraintsFold gen msgId rest (c, n)
    else
      newConstraintsFold gen msgId rest
        ({ c with constraints := c.constraints ++
            [{ id := gen n, description := x.description, source := x.source,
               decision_id := lastDecisionTarget c, source_messages := [msgId] }] },
          n + 1)

def newQuestionsFold (gen : Nat → String) (msgId : String) :
    List NewQuestionE → DesignCanvas × Nat → DesignCanvas × Nat
  | [], s => s
  | q :: rest, (c, n) =>
    if c.open_questions.any (fun item => isNearDuplicate item.question q.question) then
      newQuestionsFold gen msgId rest (c, n)
    else
      newQuestionsFold gen msgId rest
        ({ c with open_questions := c.open_questions ++
            [{ id := gen n, question := q.question, context := q.context,
               status := .qOpen, decision_id := lastDecisionTarget c }] },
          n + 1)

def resolvedFold : List ResolvedQuestionE → DesignCanvas → DesignCanvas
  | [], c => c
  | r :: rest, c =>
    let open_questions := updateFirst
      (fun item => isNearDuplicate item.question r.question)
      (fun q => { q with status := .qResolved })
      c.open_questions
    resolvedFold rest { c with open_questions }

/-- The canvas transformation of source `applyExtract`. -/
def applyExtractCanvas (gen : Nat → String) (messageId : String)
    (incoming : DesignExtract) (c : DesignCanvas) : DesignCanvas :=
  let extract := mergeOntoEmpty incoming
  let c1 := applyPsu extract.problem_statement_update c
  let s2 := newOptionsFold gen messageId extract.new_options (c1, 0)
  let c3 := updOptionsFold extract.update_options s2.1
  let c4 := oscFold messageId extract.option_status_changes c3
  let s5 := newDecisionsFold gen messageId extract.new_decisions (c4, s2.2)
  let c6 := updDecisionsFold extract.update_decisions s5.1
  let s7 := newConstraintsFold gen messageId extract.new_constraints (c6, s5.2)
  let s8 := newQuestionsFold gen messageId extract.new_open_questions (s7.1, s7.2)
  let c9 := resolvedFold extract.resolved_questions s8.1
  { c9 with active_option_id := ensureActiveOption c9.active_option_id c9.options }

/-- The creation-visible signature of an option: id, title, status and source
messages (description is excluded: description-append updates may touch it). -/
def optSig (o : OptionItem) : String × String × OptionStatus × List String :=
  (o.id, o.title, o.status, o.source_messages)

/-! ## Operations as a step relation

`CanvasOp` packages every canvas-mutating store action together with the
fresh ids/timestamps it draws; `canvasStep` is the transition function and
`applyOps` runs a sequence. -/

inductive CanvasOp where
  | applyEx (gen : Nat → String) (messageId : String) (e : DesignExtract)
  | addOption (fresh : String)
  | updateOption (id : String) (p : OptionPatch)
  | deleteOption (id : String)
  | reorderOption (id : String) (dir : Dir)
  | moveOption (draggedId targetId : String)
  | cycleOptionStatus (id : String)
  | promoteToDecision (fresh id : String)
  | rejectOption (id : String)
  | addDecision (fresh : String)
  | updateDecision (id : String) (p : DecisionPatch)
  | deleteDecision (id : String)
  | reorderDecision (id : String) (dir : Dir)
  | moveDecision (draggedId targetId : String)
  | reopenDecision (fresh id : String)
  | addConstraint (fresh : String)
  | updateConstraint (id : String) (p : ConstraintPatch)
  | deleteConstraint (id : String)
  | reorderConstraint (id : String) (dir : Dir)
  | moveConstraint (draggedId targetId : String)
  | addQuestion (fresh : String)
  | updateQuestion (id : String) (p : QuestionPatch)
  | deleteQuestion (id : String)
  | reorderQuestion (id : String) (dir : Dir)
  | moveQuestion (draggedId targetId : String)
  | toggleQuestionStatus (id : String)
  | addReference (fresh : String) (kind : RefKind) (label content : String)
  | updateReference (id : String) (p : ReferencePatch)
  | deleteReference (id : String)
  | reorderReference (id : String) (dir : Dir)
  | moveReference (draggedId targetId : String)
  | linkToDecision (kind : LinkKind) (itemId decisionId : String)
  | dropText (fresh : String) (target : CanvasDropTarget) (text : String)
      (src : Option String)
  | setActiveOption (id : String)
  | clearActiveOption
  | setProblemStatement (content : String)

def canvasStep : CanvasOp → DesignCanvas → DesignCanvas
  | .applyEx gen messageId e => applyExtractCanvas gen messageId e
  | .addOption fresh => addOptionCanvas fresh
  | .updateOption id p => updateOptionCanvas id p
  | .deleteOption id => deleteOptionCanvas id
  | .reorderOption id dir => reorderOptionCanvas id dir
  | .moveOption a b => moveOptionCanvas a b
  | .cycleOptionStatus id => cycleOptionStatusCanvas id
  | .promoteToDecision fresh id => promoteToDecisionCanvas fresh id
  | .rejectOption id => rejectOptionCanvas id
  | .addDecision fresh => addDecisionCanvas fresh
  | .updateDecision id p => updateDecisionCanvas id p
  | .deleteDecision id => deleteDecisionCanvas id
  | .reorderDecision id dir => reorderDecisionCanvas id dir
  | .moveDecision a b => moveDecisionCanvas a b
  | .reopenDecision fresh id => reopenDecisionCanvas fresh id
  | .addConstraint fresh => addConstraintCanvas fresh
  | .updateConstraint id p => updateConstraintCanvas id p
  | .deleteConstraint id => deleteConstraintCanvas id
  | .reorderConstraint id dir => reorderConstraintCanvas id dir
  | .moveConstraint a b => moveConstraintCanvas a b
  | .addQuestion fresh => addQuestionCanvas fresh
  | .updateQuestion id p => updateQuestionCanvas id p
  | .deleteQuestion id => deleteQuestionCanvas id
  | .reorderQuestion id dir => reorderQuestionCanvas id dir
  | .moveQuestion a b => moveQuestionCanvas a b
  | .toggleQuestionStatus id => toggleQuestionStatusCanvas id
  | .addReference fresh kind label content => addReferenceCanvas fresh kind label content
  | .updateReference id p => updateReferenceCanvas id p
  | .deleteReference id => deleteReferenceCanvas id
  | .reorderReference id dir => reorderReferenceCanvas id dir
  | .moveReference a b => moveReferenceCanvas a b
  | .linkToDecision kind itemId decisionId => linkToDecisionCanvas kind itemId decisionId
  | .dropText fresh target text src => dropTextToCanvasCanvas fresh target text src
  | .setActiveOption id => setActiveOptionCanvas id
  | .clearActiveOption => clearActiveOptionCanvas
  | .setProblemStatement content => setProblemStatementCanvas content

def applyOps (ops : List CanvasOp) (c : DesignCanvas) : DesignCanvas :=
  ops.foldl (fun acc op => canvasStep op acc) c

/-! ## Referential-integrity invariants -/

def optIds (c : DesignCanvas) : List String := c.options.map (·.id)

def decIds (c : DesignCanvas) : List String := c.decisions.map (·.id)

/-- A weak reference resolves: it is unset or names an element of `ids`. -/
def Resolves (ids : List String) : Option String → Prop
  | none => True
  | some a => a ∈ ids

instance (ids : List String) : (r : Option String) → Decidable (Resolves ids r)
  | none => .isTrue trivial
  | some a => inferInstanceAs (Decidable (a ∈ ids))

/-- Invariant: every non-null `option_id` held by a decision and every
non-null `decision_id` held by a constraint, open question or reference
resolves to an entity in the same canvas. -/
def RefIntegrity (c : DesignCanvas) : Prop :=
  (∀ d ∈ c.decisions, Resolves (optIds c) d.option_id) ∧
  (∀ x ∈ c.constraints, Resolves (decIds c) x.decision_id) ∧
  (∀ q ∈ c.open_questions, Resolves (decIds c) q.decision_id) ∧
  (∀ r ∈ c.references, Resolves (decIds c) r.decision_id)

instance : DecidablePred RefIntegrity := fun _ => by
  unfold RefIntegrity; infer_instance

/-- Invariant: `active_option_id` is unset or names an existing option. -/
def ActiveOk (c : DesignCanvas) : Prop :=
  Resolves (optIds c) c.active_option_id

instance : DecidablePred ActiveOk := fun _ => by
  unfold ActiveOk; infer_instance

def CanvasInv (c : DesignCanvas) : Prop := RefIntegrity c ∧ ActiveOk c

instance : DecidablePred CanvasInv := fun _ => by
  unfold CanvasInv; infer_instance

/-- The operation classes named by the referential-integrity claim:
the automatic merge plus manual add / edit / delete / reorder / link / move. -/
def isMergeOrManual : CanvasOp → Bool
  | .applyEx _ _ _ => true
  | .addOption _ => true
  | .updateOption _ _ => true
  | .deleteOption _ => true
  | .reorderOption _ _ => true
  | .moveOption _ _ => true
  | .addDecision _ => true
  | .updateDecision _ _ => true
  | .deleteDecision _ => true
  | .reorderDecision _ _ => true
  | .moveDecision _ _ => true
  | .addConstraint _ => true
  | .updateConstraint _ _ => true
  | .deleteConstraint _ => true
  | .reorderConstraint _ _ => true
  | .moveConstraint _ _ => true
  | .addQuestion _ => true
  | .updateQuestion _ _ => true
  | .deleteQuestion _ => true
  | .reorderQuestion _ _ => true
  | .moveQuestion _ _ => true
  | .addReference _ _ _ _ => true
  | .updateReference _ _ => true
  | .deleteReference _ => true
  | .reorderReference _ _ => true
  | .moveReference _ _ => true
  | .linkToDecision _ _ _ => true
  | _ => false

/-- A patched-in reference entry is safe when it is absent, explicitly
cleared, or names an entity in `ids`. -/
def refSetOk (ids : List String) : Option (Option String) → Prop
  | none => True
  | some r => Resolves ids r

instance (ids : List String) : (x : Option (Option String)) →
    Decidable (refSetOk ids x)
  | none => .isTrue trivial
  | some r => inferInstanceAs (Decidable (Resolves ids r))

/-- Safety condition an operation needs before it establishes a reference
(the claim says the code enforces it; the code does not): the target must
exist.  This covers `linkToDecision` and the `Partial<T>` edits through which
the UI reparents a decision or re-links/unlinks a constraint, question or
reference. -/
def opSafe (op : CanvasOp) (c : DesignCanvas) : Prop :=
  match op with
  | .linkToDecision _ _ decisionId => decisionId ∈ decIds c
  | .updateDecision _ p => refSetOk (optIds c) p.option_id
  | .updateConstraint _ p => refSetOk (decIds c) p.decision_id
  | .updateQuestion _ p => refSetOk (decIds c) p.decision_id
  | .updateReference _ p => refSetOk (decIds c) p.decision_id
  | _ => True

instance (op : CanvasOp) (c : DesignCanvas) : Decidable (opSafe op c) := by
  unfold opSafe; cases op <;> infer_instance

/-- A trace of merge/manual operations in which every established reference
(link or patched-in edit) targets an entity existing at that moment. -/
def OpsOk : List CanvasOp → DesignCanvas → Prop
  | [], _ => True
  | op :: rest, c =>
    isMergeOrManual op = true ∧ opSafe op c ∧ OpsOk rest (canvasStep op c)

instance : (ops : List CanvasOp) → (c : DesignCanvas) → Decidable (OpsOk ops c)
  | [], _ => .isTrue trivial
  | op :: rest, c => by
    unfold OpsOk
    have := instDecidableOpsOk rest (canvasStep op c)
    infer_instance

/-! ## Store level (spaces list and active space) -/

def createEmptyCanvas : DesignCanvas :=
  { problem_statement := "", active_option_id := none, options := [],
    decisions := [], constraints := [], open_questions := [], references := [] }

/-- Source `createNewSpace` with the generated id and timestamp passed in. -/
def createNewSpace (freshId ts : String) (title : String := "Untitled Design") :
    DesignSpace :=
  { id := freshId, title, created_at := ts, updated_at := ts,
    status := .exploring, conversation := [], design_canvas := createEmptyCanvas,
    outputs := {}, usage_history := [], extraction_failures := 0,
    extraction_failure_log := [] }

structure StoreState where
  spaces : List DesignSpace
  activeSpaceId : String
deriving DecidableEq, Repr

def createSpaceStore (freshId ts : String) (title : Option String)
    (s : StoreState) : StoreState :=
  let next := createNewSpace freshId ts (title.getD "Untitled Design")
  { spaces := next :: s.spaces, activeSpaceId := next.id }

def deleteSpaceStore (freshId ts id : String) (s : StoreState) : StoreState :=
  match s.spaces.filter (fun sp => !(sp.id == id)) with
  | [] =>
    { spaces := [createNewSpace freshId ts]
      activeSpaceId := (createNewSpace freshId ts).id }
  | r0 :: rest =>
    { spaces := r0 :: rest
      activeSpaceId := if s.activeSpaceId = id then r0.id else s.activeSpaceId }

/-- The active id `replaceSpaces` installs:
`activeFromInput ? nextActiveSpaceId : safeSpaces[0].id`, where
`activeFromInput` is the truthiness-guarded membership test of the requested
id in `safeSpaces`. -/
def replaceActiveId (safeSpaces : List DesignSpace) (next : Option String)
    (fallback : String) : String :=
  match next with
  | some n => if n ≠ "" ∧ safeSpaces.any (fun sp => sp.id == n) then n else fallback
  | none => fallback

def replaceSpacesStore (freshId ts : String) (spaces : List DesignSpace)
    (nextActiveSpaceId : Option String) (_s : StoreState) : StoreState :=
  match spaces with
  | [] =>
    { spaces := [createNewSpace freshId ts]
      activeSpaceId := replaceActiveId [createNewSpace freshId ts]
        nextActiveSpaceId (createNewSpace freshId ts).id }
  | sp0 :: rest =>
    { spaces := sp0 :: rest
      activeSpaceId := replaceActiveId (sp0 :: rest) nextActiveSpaceId sp0.id }

def StoreInv (s : StoreState) : Prop :=
  s.spaces ≠ [] ∧ ∃ sp ∈ s.spaces, sp.id = s.activeSpaceId

instance : DecidablePred StoreInv := fun _ => by
  unfold StoreInv; infer_instance

/-! ## Export / import (src/store/useAppStore.ts)

The JSON envelope is modelled as a typed record; `JSON.parse ∘ JSON.stringify`
is the identity on such data (each `undefined` optional field is dropped by
`stringify` and read back as `undefined`), so `exportSpacesPayload` produces
the envelope and `importSpacesPayload` consumes it.  The `Array.isArray` /
`typeof` repairs of the import are the identity on well-typed records; the
only repair with effect in the model is the `active_option_id`
re-derivation. -/

structure ExportDoc where
  version : Nat
  exported_at : String
  activeSpaceId : String
  spaces : List DesignSpace
deriving DecidableEq, Repr

def exportSpacesPayload (spaces : List DesignSpace) (activeSpaceId ts : String) :
    ExportDoc :=
  { version := 1, exported_at := ts, activeSpaceId, spaces }

def repairSpace (sp : DesignSpace) : DesignSpace :=
  let canvas := sp.design_canvas
  let active := ensureActiveOption canvas.active_option_id canvas.options
  { sp with design_canvas := { canvas with active_option_id := active } }

def importSpacesPayload (doc : ExportDoc) :
    Except String (List DesignSpace × Option String) :=
  match doc.spaces with
  | [] => .error "Invalid import file: missing spaces array."
  | _ => .ok (doc.spaces.map repairSpace, some doc.activeSpaceId)

end AgLens

/-- C8: the two documented concrete cases of the fuzzy matcher: the Redis
pub/sub pair is a near-duplicate, the WebSockets/Kafka pair is not. -/
theorem c8_near_duplicate_examples :
    AgLens.isNearDuplicate "Use Redis Pub/Sub" "Redis pubsub approach" = true ∧
      AgLens.isNearDuplicate "Use WebSockets" "Use Kafka" = false := by
  constructor <;> decide

/-- C5 (evaluation at the failing input): for an input with no tag pair,
`parseAssistantExtract` returns the full trimmed input as visible text, a null
parse error, and `createEmptyExtract` — whose nine merge fields are present
and empty/null, but whose six lifecycle array fields (`update_constraints`,
`finish_branches`, `delete_decisions`, `delete_constraints`,
`delete_open_questions`, `set_branch_todos`) are absent (`none`), not present
and empty as the claim (and the repo's own `DesignExtract` interface and
prompt) require. -/
theorem c5_empty_extract_lifecycle_fields_absent
    (dec : String → Except String AgLens.DesignExtract) :
    (AgLens.parseAssistantExtract dec "Answer text with no tags").text
        = "Answer text with no tags" ∧
    (AgLens.parseAssistantExtract dec "Answer text with no tags").parse_error = none ∧
    (AgLens.parseAssistantExtract dec "Answer text with no tags").raw_extract = "" ∧
    (AgLens.parseAssistantExtract dec "Answer text with no tags").extract
        = AgLens.createEmptyExtract ∧
    AgLens.createEmptyExtract.problem_statement_update = none ∧
    AgLens.createEmptyExtract.new_options = [] ∧
    AgLens.createEmptyExtract.update_options = [] ∧
    AgLens.createEmptyExtract.option_status_changes = [] ∧
    AgLens.createEmptyExtract.new_decisions = [] ∧
    AgLens.createEmptyExtract.update_decisions = [] ∧
    AgLens.createEmptyExtract.new_constraints = [] ∧
    AgLens.createEmptyExtract.new_open_questions = [] ∧
    AgLens.createEmptyExtract.resolved_questions = [] ∧
    AgLens.createEmptyExtract.update_constraints = none ∧
    AgLens.createEmptyExtract.finish_branches = none ∧
    AgLens.createEmptyExtract.delete_decisions = none ∧
    AgLens.createEmptyExtract.delete_constraints = none ∧
    AgLens.createEmptyExtract.delete_open_questions = none ∧
    AgLens.createEmptyExtract.set_branch_todos = none := by
  have h : AgLens.findExtractBlock ("Answer text with no tags".toList) = none := by
    decide
  have hp : AgLens.parseAssistantExtract dec "Answer text with no tags" =
      { text := String.mk (AgLens.trimChars "Answer text with no tags".toList)
        extract := AgLens.createEmptyExtract
        parse_error := none
        raw_extract := "" } := by
    simp only [AgLens.parseAssistantExtract, h]
  rw [hp]
  decide

/-- C6: whenever the input contains a tag pair and the deserializer fails on
the captured interior, `parseAssistantExtract` returns (without throwing) the
canonical empty extract, the input with the matched block removed and trimmed
as visible text, the thrown message as a non-null parse error, and the raw
interior text in `raw_extract`. -/
theorem c6_parse_failure_captured (dec : String → Except String AgLens.DesignExtract)
    (raw : String) (b : AgLens.TagBlock) (msg : String)
    (hb : AgLens.findExtractBlock raw.toList = some b)
    (hdec : dec (String.mk (AgLens.trimChars b.inner)) = .error msg) :
    AgLens.parseAssistantExtract dec raw =
      { text := String.mk (AgLens.trimChars (b.pre ++ b.post))
        extract := AgLens.createEmptyExtract
        parse_error := some msg
        raw_extract := String.mk (AgLens.trimChars b.inner) } := by
  simp only [AgLens.parseAssistantExtract, hb, hdec]

/-- Witness for C6 at the spec's own example input. -/
theorem c6_parse_failure_captured_witness :
    AgLens.parseAssistantExtract (fun _ => Except.error "Unexpected token")
        "Answer text\n<design_extract>{oops}</design_extract>" =
      { text := "Answer text"
        extract := AgLens.createEmptyExtract
        parse_error := some "Unexpected token"
        raw_extract := "{oops}" } := by
  have h := c6_parse_failure_captured (fun _ => Except.error "Unexpected token")
    "Answer text\n<design_extract>{oops}</design_extract>"
    ⟨"Answer text\n".toList, "{oops}".toList, []⟩ "Unexpected token"
    (by decide) rfl
  rw [h]
  decide

/-- C7: deleting an option clears `option_id` on exactly the decisions that
referenced it: the decision list is pointwise mapped (so no decision is
removed), decisions referencing the option get `option_id` cleared, and all
other decisions are unchanged. -/
theorem c7_delete_option_clears_decisions (c : AgLens.DesignCanvas)
    (o : AgLens.OptionItem) (_ho : o ∈ c.options) :
    (AgLens.deleteOptionCanvas o.id c).decisions =
      c.decisions.map (fun d =>
        if d.option_id == some o.id then { d with option_id := none } else d) ∧
    (AgLens.deleteOptionCanvas o.id c).decisions.length = c.decisions.length ∧
    (∀ d ∈ c.decisions, d.option_id = some o.id →
      { d with option_id := none } ∈ (AgLens.deleteOptionCanvas o.id c).decisions) ∧
    (∀ d ∈ c.decisions, d.option_id ≠ some o.id →
      d ∈ (AgLens.deleteOptionCanvas o.id c).decisions) := by
  refine ⟨rfl, by simp [AgLens.deleteOptionCanvas], ?_, ?_⟩
  · intro d hd href
    have : ({ d with option_id := none } : AgLens.Decision) =
        (fun d : AgLens.Decision =>
          if d.option_id == some o.id then { d with option_id := none } else d) d := by
      simp [href]
    rw [this]
    exact List.mem_map_of_mem _ hd
  · intro d hd href
    have : d = (fun d : AgLens.Decision =>
        if d.option_id == some o.id then { d with option_id := none } else d) d := by
      simp [href]
    rw [this]
    exact List.mem_map_of_mem _ hd

/-- Witness for C7 on a concrete canvas with one option and two decisions, one
referencing the option and one not. -/
theorem c7_delete_option_clears_decisions_witness :
    (AgLens.deleteOptionCanvas "o1"
        { problem_statement := ""
          active_option_id := some "o1"
          options := [{ id := "o1", title := "A", description := "",
                        status := .considering, source_messages := [] }]
          decisions := [{ id := "d1", title := "D1", reasoning := "",
                          trade_offs := "", option_id := some "o1" },
                        { id := "d2", title := "D2", reasoning := "",
                          trade_offs := "", option_id := none }]
          constraints := []
          open_questions := []
          references := [] }).decisions =
      [{ id := "d1", title := "D1", reasoning := "", trade_offs := "",
         option_id := none },
       { id := "d2", title := "D2", reasoning := "", trade_offs := "",
         option_id := none }] := by
  have h := (c7_delete_option_clears_decisions
    { problem_statement := ""
      active_option_id := some "o1"
      options := [{ id := "o1", title := "A", description := "",
                    status := .considering, source_messages := [] }]
      decisions := [{ id := "d1", title := "D1", reasoning := "",
                      trade_offs := "", option_id := some "o1" },
                    { id := "d2", title := "D2", reasoning := "",
                      trade_offs := "", option_id := none }]
      constraints := []
      open_questions := []
      references := [] }
    { id := "o1", title := "A", description := "",
      status := .considering, source_messages := [] }
    (by decide)).1
  rw [h]
  decide

/-- C9: importing the document produced by export succeeds (for a non-empty
space list) and reproduces the same spaces up to the `active_option_id`
repair: every entity collection, every id and every reference is preserved
verbatim, and the active space id round-trips. -/
theorem c9_export_import_round_trip (spaces : List AgLens.DesignSpace)
    (activeId ts : String) (h : spaces ≠ []) :
    AgLens.importSpacesPayload (AgLens.exportSpacesPayload spaces activeId ts) =
      Except.ok (spaces.map AgLens.repairSpace, some activeId) ∧
    ∀ sp ∈ spaces,
      (AgLens.repairSpace sp).id = sp.id ∧
      (AgLens.repairSpace sp).design_canvas.options = sp.design_canvas.options ∧
      (AgLens.repairSpace sp).design_canvas.decisions = sp.design_canvas.decisions ∧
      (AgLens.repairSpace sp).design_canvas.constraints = sp.design_canvas.constraints ∧
      (AgLens.repairSpace sp).design_canvas.open_questions = sp.design_canvas.open_questions ∧
      (AgLens.repairSpace sp).design_canvas.references = sp.design_canvas.references ∧
      (AgLens.repairSpace sp).design_canvas.problem_statement = sp.design_canvas.problem_statement ∧
      (AgLens.repairSpace sp).conversation = sp.conversation ∧
      (AgLens.repairSpace sp).outputs = sp.outputs := by
  constructor
  · cases spaces with
    | nil => exact absurd rfl h
    | cons a l => rfl
  · intro sp _
    simp [AgLens.repairSpace]

/-- Witness for C9 on a singleton space list. -/
theorem c9_export_import_round_trip_witness :
    AgLens.importSpacesPayload
        (AgLens.exportSpacesPayload [AgLens.createNewSpace "s1" "t0"] "s1" "t1") =
      Except.ok ([AgLens.createNewSpace "s1" "t0"].map AgLens.repairSpace, some "s1") :=
  (c9_export_import_round_trip [AgLens.createNewSpace "s1" "t0"] "s1" "t1"
    (by decide)).1

/-- Helper: the active id chosen by `replaceSpaces` always names a member of
the space list when the fallback does. -/
theorem replaceActiveId_resolves (l : List AgLens.DesignSpace)
    (next : Option String) (s0 : AgLens.DesignSpace) (hs0 : s0 ∈ l) :
    ∃ sp ∈ l, sp.id = AgLens.replaceActiveId l next s0.id := by
  rcases next with _ | n
  · exact ⟨s0, hs0, rfl⟩
  · simp only [AgLens.replaceActiveId]
    by_cases h : n ≠ "" ∧ (l.any fun sp => sp.id == n) = true
    · rw [if_pos h]
      obtain ⟨sp, hsp, hspn⟩ := List.any_eq_true.mp h.2
      exact ⟨sp, hsp, by simpa using hspn⟩
    · rw [if_neg h]
      exact ⟨s0, hs0, rfl⟩

/-- C10: the store's space list is never empty and `activeSpaceId` names one
of its spaces after `createSpace`, `deleteSpace` (given the invariant held
before) or `replaceSpaces`; deleting the last space installs a fresh space as
active, deleting the active space re-targets to the first remaining space,
`replaceSpaces []` substitutes a fresh space, and an unknown (or absent)
next-active id falls back to the first imported space. -/
theorem c10_store_invariant :
    (∀ fid ts title s, AgLens.StoreInv (AgLens.createSpaceStore fid ts title s)) ∧
    (∀ fid ts id s, AgLens.StoreInv s →
      AgLens.StoreInv (AgLens.deleteSpaceStore fid ts id s)) ∧
    (∀ fid ts spaces next s,
      AgLens.StoreInv (AgLens.replaceSpacesStore fid ts spaces next s)) ∧
    (∀ fid ts id s, s.spaces.filter (fun sp => !(sp.id == id)) = [] →
      (AgLens.deleteSpaceStore fid ts id s).spaces = [AgLens.createNewSpace fid ts] ∧
      (AgLens.deleteSpaceStore fid ts id s).activeSpaceId = fid) ∧
    (∀ fid ts id s r0 rest,
      s.spaces.filter (fun sp => !(sp.id == id)) = r0 :: rest →
      s.activeSpaceId = id →
      (AgLens.deleteSpaceStore fid ts id s).activeSpaceId = r0.id) ∧
    (∀ fid ts next s,
      (AgLens.replaceSpacesStore fid ts [] next s).spaces =
        [AgLens.createNewSpace fid ts]) ∧
    (∀ fid ts sp0 rest s,
      (AgLens.replaceSpacesStore fid ts (sp0 :: rest) none s).activeSpaceId = sp0.id ∧
      ∀ n, (sp0 :: rest).any (fun sp => sp.id == n) = false →
        (AgLens.replaceSpacesStore fid ts (sp0 :: rest) (some n) s).activeSpaceId
          = sp0.id) := by
  refine ⟨?_, ?_, ?_, ?_, ?_, ?_, ?_⟩
  · intro fid ts title s
    exact ⟨by simp [AgLens.createSpaceStore], _, List.mem_cons_self _ _, rfl⟩
  · intro fid ts id s hs
    rcases hf : s.spaces.filter (fun sp => !(sp.id == id)) with _ | ⟨r0, rest⟩
    · simp only [AgLens.deleteSpaceStore, hf]
      exact ⟨by simp, _, List.mem_singleton.mpr rfl, rfl⟩
    · simp only [AgLens.deleteSpaceStore, hf]
      by_cases hid : s.activeSpaceId = id
      · exact ⟨by simp, r0, List.mem_cons_self _ _, by simp [hid]⟩
      · obtain ⟨sp, hsp, hspid⟩ := hs.2
        refine ⟨by simp, sp, ?_, by simp [hid, hspid]⟩
        rw [← hf]
        exact List.mem_filter.mpr ⟨hsp, by simp [hspid, hid]⟩
  · intro fid ts spaces next s
    rcases spaces with _ | ⟨sp0, rest⟩ <;> simp only [AgLens.replaceSpacesStore]
    · exact ⟨by simp, replaceActiveId_resolves _ next _ (List.mem_singleton.mpr rfl)⟩
    · exact ⟨by simp, replaceActiveId_resolves _ next _ (List.mem_cons_self _ _)⟩
  · intro fid ts id s hf
    simp only [AgLens.deleteSpaceStore, hf]
    exact ⟨trivial, rfl⟩
  · intro fid ts id s r0 rest hf hid
    simp only [AgLens.deleteSpaceStore, hf]
    simp [hid]
  · intro fid ts next s
    rfl
  · intro fid ts sp0 rest s
    refine ⟨rfl, ?_⟩
    intro n hn
    simp only [AgLens.replaceSpacesStore, AgLens.replaceActiveId]
    simp [hn]

/-- Witness for C10: the preservation conjuncts applied to a concrete store
state. -/
theorem c10_store_invariant_witness :
    AgLens.StoreInv
      (AgLens.deleteSpaceStore "f1" "t1" "a"
        { spaces := [AgLens.createNewSpace "a" "t0"], activeSpaceId := "a" }) ∧
    AgLens.StoreInv
      (AgLens.createSpaceStore "f2" "t2" none
        { spaces := [AgLens.createNewSpace "a" "t0"], activeSpaceId := "a" }) ∧
    AgLens.StoreInv
      (AgLens.replaceSpacesStore "f3" "t3" [] none
        { spaces := [AgLens.createNewSpace "a" "t0"], activeSpaceId := "a" }) :=
  ⟨c10_store_invariant.2.1 "f1" "t1" "a" _ (by decide),
   c10_store_invariant.1 "f2" "t2" none _,
   c10_store_invariant.2.2.1 "f3" "t3" [] none _⟩

/-- Helper: deduplication of a non-empty list is non-empty. -/
theorem dedupFirst_cons_ne_nil (x : String) (l : List String) :
    AgLens.dedupFirst (x :: l) ≠ [] := by
  simp [AgLens.dedupFirst, AgLens.dedupAux]

/-- Bridge: the cross-multiplied partial-overlap test is the rational
comparison `intersection/min ≥ 2/5` (with the code's `minSize > 0` guard). -/
theorem ratioTestB_iff (i m : Nat) :
    AgLens.ratioTestB i m = true ↔
      (2 ≤ i ∧ 0 < m ∧ (2 : ℚ) / 5 ≤ (i : ℚ) / (m : ℚ)) := by
  unfold AgLens.ratioTestB
  rw [decide_eq_true_iff]
  constructor
  · rintro ⟨h1, h2, h3⟩
    refine ⟨h1, h2, ?_⟩
    rw [div_le_div_iff₀ (by norm_num) (by exact_mod_cast h2)]
    have hn : 2 * m ≤ i * 5 := by omega
    exact_mod_cast hn
  · rintro ⟨h1, h2, h3⟩
    refine ⟨h1, h2, ?_⟩
    rw [div_le_div_iff₀ (by norm_num) (by exact_mod_cast h2)] at h3
    have hn : 2 * m ≤ i * 5 := by exact_mod_cast h3
    omega

/-- Bridge: the cross-multiplied Jaccard test is the rational comparison
`similarity ≥ 18/25`. -/
theorem simTestB_iff (a b : String) :
    AgLens.simTestB a b = true ↔ (18 : ℚ) / 25 ≤ AgLens.similarity a b := by
  simp only [AgLens.simTestB, AgLens.similarity]
  rw [decide_eq_true_iff]
  by_cases ha : (AgLens.tokenSet a).length = 0
  · rw [if_pos (Or.inl ha)]
    simp only [ha, not_true_eq_false, false_and, false_iff]
    norm_num
  · by_cases hb : (AgLens.tokenSet b).length = 0
    · rw [if_pos (Or.inr hb)]
      simp only [hb, not_true_eq_false, false_and, and_false, false_iff]
      norm_num
    · rw [if_neg (by tauto)]
      have hne : AgLens.tokenSet a ≠ [] := fun h => ha (by rw [h]; rfl)
      obtain ⟨x, xs, hx⟩ := List.exists_cons_of_ne_nil hne
      have hunion : AgLens.unionCount (AgLens.tokenSet a) (AgLens.tokenSet b) ≠ 0 := by
        rw [hx]
        unfold AgLens.unionCount
        intro h
        exact dedupFirst_cons_ne_nil x (xs ++ AgLens.tokenSet b)
          (List.length_eq_zero.mp (by simpa using h))
      rw [if_neg hunion]
      have hupos : (0 : ℚ) <
          (AgLens.unionCount (AgLens.tokenSet a) (AgLens.tokenSet b) : ℚ) := by
        exact_mod_cast Nat.pos_of_ne_zero hunion
      rw [div_le_div_iff₀ (by norm_num) hupos]
      constructor
      · rintro ⟨-, -, h3⟩
        have hn : 18 * AgLens.unionCount (AgLens.tokenSet a) (AgLens.tokenSet b) ≤
            AgLens.interCount (AgLens.tokenSet a) (AgLens.tokenSet b) * 25 := by
          omega
        exact_mod_cast hn
      · intro h3
        refine ⟨ha, hb, ?_⟩
        have hn : 18 * AgLens.unionCount (AgLens.tokenSet a) (AgLens.tokenSet b) ≤
            AgLens.interCount (AgLens.tokenSet a) (AgLens.tokenSet b) * 25 := by
          exact_mod_cast h3
        omega

/-- C4 counterexample: the pair `"abcd efg zzz"`, `"zzz abc defg"` satisfies
all the claim's hypotheses (non-empty canonical forms, no containment
short-circuit), yet `isNearDuplicate` returns `true` while the claim's
condition is false: the unigram-only intersection is `{zzz}` (count 1 < 2) and
the Jaccard score is `2/8 < 0.72`.  The code counts the shared bigram
`abcdefg` — produced by different token splits on the two sides — in its
intersection, so its intersection count is 2 with ratio `2/5 ≥ 0.4`. -/
theorem c4_counterexample :
    AgLens.canonicalize "abcd efg zzz" ≠ "" ∧
    AgLens.canonicalize "zzz abc defg" ≠ "" ∧
    AgLens.nearDupShortCircuit (AgLens.canonicalize "abcd efg zzz")
      (AgLens.canonicalize "zzz abc defg") = false ∧
    AgLens.isNearDuplicate "abcd efg zzz" "zzz abc defg" = true ∧
    ¬ AgLens.claimCondC4 "abcd efg zzz" "zzz abc defg" := by
  refine ⟨by decide, by decide, by decide, by decide, ?_⟩
  intro hC
  rcases hC with ⟨h2le, -⟩ | hsim
  · have hu : AgLens.interCount
        (AgLens.unigramSet (AgLens.canonicalize "abcd efg zzz"))
        (AgLens.unigramSet (AgLens.canonicalize "zzz abc defg")) = 1 := by decide
    rw [hu] at h2le
    exact absurd h2le (by norm_num)
  · have hs : AgLens.similarity (AgLens.canonicalize "abcd efg zzz")
        (AgLens.canonicalize "zzz abc defg") = 2 / 8 := by
      have h1 : (AgLens.tokenSet (AgLens.canonicalize "abcd efg zzz")).length = 5 := by
        decide
      have h2 : (AgLens.tokenSet (AgLens.canonicalize "zzz abc defg")).length = 5 := by
        decide
      have h3 : AgLens.interCount (AgLens.tokenSet (AgLens.canonicalize "abcd efg zzz"))
          (AgLens.tokenSet (AgLens.canonicalize "zzz abc defg")) = 2 := by decide
      have h4 : AgLens.unionCount (AgLens.tokenSet (AgLens.canonicalize "abcd efg zzz"))
          (AgLens.tokenSet (AgLens.canonicalize "zzz abc defg")) = 8 := by decide
      simp only [AgLens.similarity, h1, h2, h3, h4]
      norm_num
    rw [hs] at hsim
    norm_num at hsim

/-- Helper: the final branch of `isNearDuplicate` (after the guards and
short-circuits) is the disjunction of the rational partial-overlap test and
the rational Jaccard test. -/
theorem nearDupBranch_iff (i m : Nat) (aC bC : String) :
    ((if AgLens.ratioTestB i m then true else AgLens.simTestB aC bC) = true) ↔
      ((2 ≤ i ∧ 0 < m ∧ (2 : ℚ) / 5 ≤ (i : ℚ) / (m : ℚ)) ∨
       (18 : ℚ) / 25 ≤ AgLens.similarity aC bC) := by
  rcases hr : AgLens.ratioTestB i m with _ | _
  · rw [if_neg (by simp), simTestB_iff]
    have hrp : ¬ (2 ≤ i ∧ 0 < m ∧ (2 : ℚ) / 5 ≤ (i : ℚ) / (m : ℚ)) := by
      intro h
      rw [(ratioTestB_iff i m).mpr h] at hr
      exact absurd hr (by simp)
    exact (or_iff_right hrp).symm
  · rw [if_pos rfl]
    exact iff_of_true rfl (Or.inl ((ratioTestB_iff i m).mp hr))

/-- C4 amended: outside the short-circuits the code returns true exactly when
the intersection count over the full token sets (unigrams and bigrams, not
unigram-only) is at least 2, the smaller set is non-empty, and
intersection/min ≥ 0.4 — or the full Jaccard score is at least 0.72. -/
theorem c4_amended_near_duplicate_branch (a b : String)
    (hA : AgLens.canonicalize a ≠ "") (hB : AgLens.canonicalize b ≠ "")
    (hSC : AgLens.nearDupShortCircuit (AgLens.canonicalize a)
      (AgLens.canonicalize b) = false) :
    AgLens.isNearDuplicate a b = true ↔
      ((2 ≤ AgLens.interCount (AgLens.tokenSet (AgLens.canonicalize a))
            (AgLens.tokenSet (AgLens.canonicalize b)) ∧
        0 < min (AgLens.tokenSet (AgLens.canonicalize a)).length
            (AgLens.tokenSet (AgLens.canonicalize b)).length ∧
        (2 : ℚ) / 5 ≤
          (AgLens.interCount (AgLens.tokenSet (AgLens.canonicalize a))
              (AgLens.tokenSet (AgLens.canonicalize b)) : ℚ) /
            ((min (AgLens.tokenSet (AgLens.canonicalize a)).length
              (AgLens.tokenSet (AgLens.canonicalize b)).length : ℕ) : ℚ)) ∨
       (18 : ℚ) / 25 ≤ AgLens.similarity (AgLens.canonicalize a)
          (AgLens.canonicalize b)) := by
  have hmain : AgLens.isNearDuplicate a b =
      (if AgLens.ratioTestB
          (AgLens.interCount (AgLens.tokenSet (AgLens.canonicalize a))
            (AgLens.tokenSet (AgLens.canonicalize b)))
          (min (AgLens.tokenSet (AgLens.canonicalize a)).length
            (AgLens.tokenSet (AgLens.canonicalize b)).length) then true
        else AgLens.simTestB (AgLens.canonicalize a) (AgLens.canonicalize b)) := by
    unfold AgLens.isNearDuplicate
    rw [if_neg (by simp [hA, hB]), if_neg (by simp [hSC])]
  rw [hmain]
  exact nearDupBranch_iff _ _ _ _

/-- Witness for the amended C4 at the concrete pair from the spec. -/
theorem c4_amended_near_duplicate_branch_witness :
    AgLens.isNearDuplicate "Use WebSockets" "Use Kafka" = true ↔
      ((2 ≤ AgLens.interCount (AgLens.tokenSet (AgLens.canonicalize "Use WebSockets"))
            (AgLens.tokenSet (AgLens.canonicalize "Use Kafka")) ∧
        0 < min (AgLens.tokenSet (AgLens.canonicalize "Use WebSockets")).length
            (AgLens.tokenSet (AgLens.canonicalize "Use Kafka")).length ∧
        (2 : ℚ) / 5 ≤
          (AgLens.interCount (AgLens.tokenSet (AgLens.canonicalize "Use WebSockets"))
              (AgLens.tokenSet (AgLens.canonicalize "Use Kafka")) : ℚ) /
            ((min (AgLens.tokenSet (AgLens.canonicalize "Use WebSockets")).length
              (AgLens.tokenSet (AgLens.canonicalize "Use Kafka")).length : ℕ) : ℚ)) ∨
       (18 : ℚ) / 25 ≤ AgLens.similarity (AgLens.canonicalize "Use WebSockets")
          (AgLens.canonicalize "Use Kafka")) :=
  c4_amended_near_duplicate_branch "Use WebSockets" "Use Kafka"
    (by decide) (by decide) (by decide)

/-- Helper: `updateFirst` leaves any projection fixed by the update function
unchanged across the mapped list. -/
theorem updateFirst_map_eq {α β : Type} (p : α → Bool) (f : α → α) (g : α → β)
    (h : ∀ x, g (f x) = g x) :
    ∀ l : List α, (AgLens.updateFirst p f l).map g = l.map g := by
  intro l
  induction l with
  | nil => rfl
  | cons x xs ih =>
    unfold AgLens.updateFirst
    by_cases hp : p x = true
    · simp [hp, h]
    · simp [hp, ih]

/-- Helper: the problem-statement stage leaves options untouched. -/
theorem applyPsu_options (psu : Option String) (c : AgLens.DesignCanvas) :
    (AgLens.applyPsu psu c).options = c.options := by
  unfold AgLens.applyPsu
  rcases psu with _ | s
  · rfl
  · by_cases h : AgLens.trimStr s = "" <;> simp [h]

/-- Helper: merging two near-duplicate new options into an empty option list
creates exactly the first one. -/
theorem newOptionsFold_two (gen : Nat → String) (msgId : String)
    (o1 o2 : AgLens.NewOptionE) (c : AgLens.DesignCanvas) (n : Nat)
    (hopts : c.options = [])
    (hdup : AgLens.isNearDuplicate o1.title o2.title = true) :
    (AgLens.newOptionsFold gen msgId [o1, o2] (c, n)).1.options =
      [{ id := gen n, title := o1.title, description := o1.description,
         status := .considering, branch_score := some 5,
         source_messages := [msgId] }] := by
  unfold AgLens.newOptionsFold
  rw [hopts]
  simp only [List.any_nil, Bool.false_eq_true, if_false, List.nil_append]
  unfold AgLens.newOptionsFold
  simp only [List.any_cons, List.any_nil, hdup, Bool.or_false, if_true]
  unfold AgLens.newOptionsFold
  rfl

/-- Helper: description appends keep the option signature and the active
option unchanged. -/
theorem updOptionsFold_sig (l : List AgLens.UpdateOptionE) (c : AgLens.DesignCanvas) :
    (AgLens.updOptionsFold l c).options.map AgLens.optSig =
        c.options.map AgLens.optSig ∧
      (AgLens.updOptionsFold l c).active_option_id = c.active_option_id := by
  induction l generalizing c with
  | nil => exact ⟨rfl, rfl⟩
  | cons u us ih =>
    unfold AgLens.updOptionsFold
    rcases hf : c.options.find? (fun item => item.id == u.id) with _ | t
    · simp only [hf]
      exact ih c
    · simp only [hf]
      by_cases hd : AgLens.trimStr u.description = ""
      · rw [if_pos hd]
        exact ih c
      · rw [if_neg hd]
        obtain ⟨iho, iha⟩ := ih _
        refine ⟨?_, by rw [iha]⟩
        rw [iho]
        dsimp only
        exact updateFirst_map_eq (fun item => item.id == u.id)
          (fun t => { t with
            description := AgLens.appendField t.description (AgLens.trimStr u.description) })
          AgLens.optSig (fun x => rfl) c.options

/-- Helper: the decision-creation stage leaves options and the active option
unchanged. -/
theorem newDecisionsFold_options (gen : Nat → String) (msgId : String)
    (l : List AgLens.NewDecisionE) (s : AgLens.DesignCanvas × Nat) :
    (AgLens.newDecisionsFold gen msgId l s).1.options = s.1.options ∧
      (AgLens.newDecisionsFold gen msgId l s).1.active_option_id =
        s.1.active_option_id := by
  induction l generalizing s with
  | nil => exact ⟨rfl, rfl⟩
  | cons d ds ih =>
    unfold AgLens.newDecisionsFold
    rcases s with ⟨c, n⟩
    by_cases hdup : c.decisions.any (fun item => AgLens.isNearDuplicate item.title d.title) = true
    · simp only [hdup, if_true]
      exact ih _
    · simp only [hdup, if_false]
      exact ih _

/-- Helper: the decision-append stage leaves options and the active option
unchanged. -/
theorem updDecisionsFold_options (l : List AgLens.UpdateDecisionE)
    (c : AgLens.DesignCanvas) :
    (AgLens.updDecisionsFold l c).options = c.options ∧
      (AgLens.updDecisionsFold l c).active_option_id = c.active_option_id := by
  induction l generalizing c with
  | nil => exact ⟨rfl, rfl⟩
  | cons u us ih =>
    unfold AgLens.updDecisionsFold
    rcases hf : c.decisions.find? (fun item => item.id == u.id) with _ | t
    · simp only [hf]
      exact ih c
    · simp only [hf]
      exact ih _

/-- Helper: the constraint-creation stage leaves options and the active option
unchanged. -/
theorem newConstraintsFold_options (gen : Nat → String) (msgId : String)
    (l : List AgLens.NewConstraintE) (s : AgLens.DesignCanvas × Nat) :
    (AgLens.newConstraintsFold gen msgId l s).1.options = s.1.options ∧
      (AgLens.newConstraintsFold gen msgId l s).1.active_option_id =
        s.1.active_option_id := by
  induction l generalizing s with
  | nil => exact ⟨rfl, rfl⟩
  | cons x xs ih =>
    unfold AgLens.newConstraintsFold
    rcases s with ⟨c, n⟩
    by_cases hdup : c.constraints.any
        (fun item => AgLens.isNearDuplicate item.description x.description) = true
    · simp only [hdup, if_true]
      exact ih _
    · simp only [hdup, if_false]
      exact ih _

/-- Helper: the question-creation stage leaves options and the active option
unchanged. -/
theorem newQuestionsFold_options (gen : Nat → String) (msgId : String)
    (l : List AgLens.NewQuestionE) (s : AgLens.DesignCanvas × Nat) :
    (AgLens.newQuestionsFold gen msgId l s).1.options = s.1.options ∧
      (AgLens.newQuestionsFold gen msgId l s).1.active_option_id =
        s.1.active_option_id := by
  induction l generalizing s with
  | nil => exact ⟨rfl, rfl⟩
  | cons q qs ih =>
    unfold AgLens.newQuestionsFold
    rcases s with ⟨c, n⟩
    by_cases hdup : c.open_questions.any
        (fun item => AgLens.isNearDuplicate item.question q.question) = true
    · simp only [hdup, if_true]
      exact ih _
    · simp only [hdup, if_false]
      exact ih _

/-- Helper: the resolved-questions stage leaves options and the active option
unchanged. -/
theorem resolvedFold_options (l : List AgLens.ResolvedQuestionE)
    (c : AgLens.DesignCanvas) :
    (AgLens.resolvedFold l c).options = c.options ∧
      (AgLens.resolvedFold l c).active_option_id = c.active_option_id := by
  induction l generalizing c with
  | nil => exact ⟨rfl, rfl⟩
  | cons r rs ih =>
    unfold AgLens.resolvedFold
    exact ih _

/-- Helper: on a one-option list, the active-option re-derivation always
lands on that option, whatever the prior active id was. -/
theorem ensureActiveOption_single (opts : List AgLens.OptionItem)
    (a : Option String) (i0 : String) (h : opts.map (·.id) = [i0]) :
    AgLens.ensureActiveOption a opts = some i0 := by
  rcases opts with _ | ⟨o, rest⟩
  · simp at h
  · rcases rest with _ | ⟨o2, rest2⟩
    · simp only [List.map_cons, List.map_nil, List.cons.injEq, and_true] at h
      rcases a with _ | x
      · simp [AgLens.ensureActiveOption, h]
      · simp only [AgLens.ensureActiveOption]
        by_cases hc : x ≠ "" ∧ ([o].any fun ob => ob.id == x) = true
        · rw [if_pos hc]
          obtain ⟨-, hx⟩ := hc
          simp only [List.any_cons, List.any_nil, Bool.or_false, beq_iff_eq] at hx
          rw [← h, hx]
        · rw [if_neg hc]
          simp [h]
    · simp at h

/-- C3: applying an extract whose `new_options` are two near-duplicate entries
to a canvas with no options creates exactly one option — the first entry wins
— created with status `considering` and `source_messages = [sourceMessageId]`,
and it becomes the active option.  (The extract's `option_status_changes` are
empty, as in the spec's scenario; the other extract fields are arbitrary.) -/
theorem c3_duplicate_new_options_first_wins (gen : Nat → String) (msgId : String)
    (e : AgLens.DesignExtract) (o1 o2 : AgLens.NewOptionE) (c : AgLens.DesignCanvas)
    (hno : e.new_options = [o1, o2])
    (hdup : AgLens.isNearDuplicate o1.title o2.title = true)
    (hosc : e.option_status_changes = [])
    (hopts : c.options = []) :
    (AgLens.applyExtractCanvas gen msgId e c).options.map AgLens.optSig =
      [(gen 0, o1.title, AgLens.OptionStatus.considering, [msgId])] ∧
    (AgLens.applyExtractCanvas gen msgId e c).active_option_id = some (gen 0) := by
  have hmO : (AgLens.mergeOntoEmpty e).new_options = [o1, o2] := hno
  have hmS : (AgLens.mergeOntoEmpty e).option_status_changes = [] := hosc
  have h1 : (AgLens.applyPsu (AgLens.mergeOntoEmpty e).problem_statement_update
      c).options = [] := by
    rw [applyPsu_options]; exact hopts
  have h2 := newOptionsFold_two gen msgId o1 o2 _ 0 h1 hdup
  simp only [AgLens.applyExtractCanvas]
  rw [hmO, hmS]
  constructor
  · dsimp only
    rw [(resolvedFold_options _ _).1, (newQuestionsFold_options _ _ _ _).1,
      (newConstraintsFold_options _ _ _ _).1, (updDecisionsFold_options _ _).1,
      (newDecisionsFold_options _ _ _ _).1]
    simp only [AgLens.oscFold]
    rw [(updOptionsFold_sig _ _).1, h2]
    rfl
  · dsimp only
    apply ensureActiveOption_single
    rw [(resolvedFold_options _ _).1, (newQuestionsFold_options _ _ _ _).1,
      (newConstraintsFold_options _ _ _ _).1, (updDecisionsFold_options _ _).1,
      (newDecisionsFold_options _ _ _ _).1]
    simp only [AgLens.oscFold]
    have hsig : (AgLens.updOptionsFold (AgLens.mergeOntoEmpty e).update_options
        (AgLens.newOptionsFold gen msgId [o1, o2]
          (AgLens.applyPsu (AgLens.mergeOntoEmpty e).problem_statement_update c,
            0)).1).options.map AgLens.optSig =
        [(gen 0, o1.title, AgLens.OptionStatus.considering, [msgId])] := by
      rw [(updOptionsFold_sig _ _).1, h2]
      rfl
    have := congrArg (List.map Prod.fst) hsig
    rw [List.map_map] at this
    exact this

/-- Witness for C3 at the spec's Redis pair on the empty canvas. -/
theorem c3_duplicate_new_options_first_wins_witness :
    (AgLens.applyExtractCanvas (fun _ => "opt-1") "m1"
        { new_options :=
            [{ title := "Use Redis Pub/Sub", description := "d1",
               status := .considering },
             { title := "Redis pubsub approach", description := "d2",
               status := .considering }] }
        AgLens.createEmptyCanvas).options.map AgLens.optSig =
      [("opt-1", "Use Redis Pub/Sub", AgLens.OptionStatus.considering, ["m1"])] ∧
    (AgLens.applyExtractCanvas (fun _ => "opt-1") "m1"
        { new_options :=
            [{ title := "Use Redis Pub/Sub", description := "d1",
               status := .considering },
             { title := "Redis pubsub approach", description := "d2",
               status := .considering }] }
        AgLens.createEmptyCanvas).active_option_id = some "opt-1" :=
  c3_duplicate_new_options_first_wins (fun _ => "opt-1") "m1"
    { new_options :=
        [{ title := "Use Redis Pub/Sub", description := "d1",
           status := .considering },
         { title := "Redis pubsub approach", description := "d2",
           status := .considering }] }
    { title := "Use Redis Pub/Sub", description := "d1", status := .considering }
    { title := "Redis pubsub approach", description := "d2", status := .considering }
    AgLens.createEmptyCanvas rfl (by decide) rfl rfl

/-- Helper: weak-reference resolution is monotone in the id list. -/
theorem resolves_mono {ids ids' : List String} (h : ∀ a ∈ ids, a ∈ ids')
    {r : Option String} : AgLens.Resolves ids r → AgLens.Resolves ids' r := by
  rcases r with _ | a
  · intro _; trivial
  · exact h a

/-- Helper: mapping preserves a projection fixed by the function. -/
theorem map_pres_eq {α β : Type} (f : α → α) (g : α → β)
    (h : ∀ x, g (f x) = g x) (l : List α) :
    (l.map f).map g = l.map g := by
  induction l with
  | nil => rfl
  | cons x xs ih => simp [h, ih]

/-- Helper: an element reached through `updateFirst` is an original element or
the image of one. -/
theorem mem_updateFirst {α : Type} (p : α → Bool) (f : α → α) (l : List α)
    (x : α) (hx : x ∈ AgLens.updateFirst p f l) :
    x ∈ l ∨ ∃ y ∈ l, x = f y := by
  induction l with
  | nil => simp [AgLens.updateFirst] at hx
  | cons a t ih =>
    unfold AgLens.updateFirst at hx
    by_cases hp : p a = true
    · rw [if_pos hp] at hx
      rcases List.mem_cons.mp hx with h | h
      · exact Or.inr ⟨a, List.mem_cons_self _ _, h⟩
      · exact Or.inl (List.mem_cons_of_mem _ h)
    · rw [if_neg hp] at hx
      rcases List.mem_cons.mp hx with h | h
      · exact Or.inl (h ▸ List.mem_cons_self _ _)
      · rcases ih h with h' | ⟨y, hy, hxy⟩
        · exact Or.inl (List.mem_cons_of_mem _ h')
        · exact Or.inr ⟨y, List.mem_cons_of_mem _ hy, hxy⟩

/-- Helper: swapping a left element to the head (permutation building block). -/
theorem perm_set_of_get {α : Type} (l : List α) (k : Nat) (x y : α)
    (h : l.get? k = some y) : List.Perm (x :: l) (y :: l.set k x) := by
  induction l generalizing k with
  | nil => simp at h
  | cons a t ih =>
    cases k with
    | zero =>
      simp only [List.get?] at h
      injection h with h
      subst h
      exact List.Perm.swap a x t
    | succ k' =>
      simp only [List.get?] at h
      exact ((List.Perm.swap a x t).trans ((ih k' h).cons a)).trans
        (List.Perm.swap y a _)

/-- Helper: writing back the element already at a position is the identity. -/
theorem set_get_self {α : Type} (l : List α) (k : Nat) (x : α)
    (h : l.get? k = some x) : l.set k x = l := by
  induction l generalizing k with
  | nil => rfl
  | cons a t ih =>
    cases k with
    | zero =>
      simp only [List.get?] at h
      injection h with h
      simp [h]
    | succ k' =>
      simp only [List.get?] at h
      simp [ih k' h]

/-- Helper: a position not being set keeps its value. -/
theorem get?_set_ne {α : Type} (l : List α) (i j : Nat) (a : α) (hij : i ≠ j) :
    (l.set i a).get? j = l.get? j := by
  induction l generalizing i j with
  | nil => rfl
  | cons b t ih =>
    cases i with
    | zero =>
      cases j with
      | zero => exact absurd rfl hij
      | succ j' => rfl
    | succ i' =>
      cases j with
      | zero => rfl
      | succ j' => exact ih i' j' (fun h => hij (by rw [h]))

/-- Helper: `swapIdx` is a permutation. -/
theorem swapIdx_perm {α : Type} (l : List α) (i j : Nat) :
    List.Perm (AgLens.swapIdx l i j) l := by
  unfold AgLens.swapIdx
  rcases hi : l.get? i with _ | x
  · simp only [hi]
    exact List.Perm.refl l
  · rcases hj : l.get? j with _ | y
    · simp only [hi, hj]
      exact List.Perm.refl l
    · simp only [hi, hj]
      by_cases hij : i = j
      · subst hij
        rw [hi] at hj
        injection hj with hj
        subst hj
        rw [set_get_self l i x hi, set_get_self l i x hi]
      · have hj' : (l.set i y).get? j = some y := by
          rw [get?_set_ne l i j y hij]
          exact hj
        have hA : List.Perm (y :: l) (x :: l.set i y) := perm_set_of_get l i y x hi
        have hB : List.Perm (x :: l.set i y) (y :: (l.set i y).set j x) :=
          perm_set_of_get (l.set i y) j x y hj'
        exact (List.Perm.cons_inv (hA.trans hB)).symm

/-- Helper: `reorder` is a permutation. -/
theorem reorder_perm {α : Type} (items : List α) (index : Int) (dir : AgLens.Dir) :
    List.Perm (AgLens.reorder items index dir) items := by
  unfold AgLens.reorder
  split
  · exact List.Perm.refl items
  · exact swapIdx_perm items _ _

/-- Helper: inserting at a position is a permutation of consing. -/
theorem insertAtIdx_perm {α : Type} (l : List α) (n : Nat) (a : α) :
    List.Perm (AgLens.insertAtIdx l n a) (a :: l) := by
  induction l generalizing n with
  | nil =>
    cases n with
    | zero => exact List.Perm.refl _
    | succ n' => exact List.Perm.refl _
  | cons b t ih =>
    cases n with
    | zero => exact List.Perm.refl _
    | succ n' => exact ((ih n').cons b).trans (List.Perm.swap a b t)

/-- Helper: removing an element at its position and consing it back is a
permutation. -/
theorem eraseIdx_cons_perm {α : Type} (l : List α) (n : Nat) (x : α)
    (h : l.get? n = some x) : List.Perm (x :: l.eraseIdx n) l := by
  induction l generalizing n with
  | nil => simp at h
  | cons a t ih =>
    cases n with
    | zero =>
      simp only [List.get?] at h
      injection h with h
      subst h
      exact List.Perm.refl _
    | succ n' =>
      simp only [List.get?] at h
      exact (List.Perm.swap a x _).trans ((ih n' h).cons a)

/-- Helper: `moveById` is a permutation. -/
theorem moveById_perm {α : Type} (gid : α → String) (items : List α)
    (draggedId targetId : String) :
    List.Perm (AgLens.moveById gid items draggedId targetId) items := by
  unfold AgLens.moveById
  split
  · exact List.Perm.refl items
  · rcases hm : items.get? (AgLens.findIdxInt (fun x => gid x == draggedId)
        items).toNat with _ | moved
    · simp only [hm]
      exact List.Perm.refl items
    · simp only [hm]
      exact (insertAtIdx_perm _ _ moved).trans (eraseIdx_cons_perm _ _ moved hm)

/-- Helper: id-membership transfer along a permutation. -/
theorem resolves_perm {α : Type} (gid : α → String) {l l' : List α}
    (p : List.Perm l l') {r : Option String} :
    AgLens.Resolves (l.map gid) r → AgLens.Resolves (l'.map gid) r :=
  resolves_mono (fun _a ha => ((p.map gid).mem_iff).mp ha)

/-- Helper: the re-derived active option always resolves to an existing
option (or is unset). -/
theorem ensureActive_resolves (a : Option String) (opts : List AgLens.OptionItem) :
    AgLens.Resolves (opts.map (·.id)) (AgLens.ensureActiveOption a opts) := by
  rcases a with _ | x
  · rcases opts with _ | ⟨o, rest⟩
    · simp [AgLens.ensureActiveOption, AgLens.Resolves]
    · simp only [AgLens.ensureActiveOption, List.head?_cons, Option.map_some]
      exact List.mem_map_of_mem _ (List.mem_cons_self _ _)
  · simp only [AgLens.ensureActiveOption]
    by_cases hc : x ≠ "" ∧ (opts.any fun o => o.id == x) = true
    · rw [if_pos hc]
      obtain ⟨o, ho, hox⟩ := List.any_eq_true.mp hc.2
      have hx : o.id = x := by simpa using hox
      exact hx ▸ List.mem_map_of_mem _ ho
    · rw [if_neg hc]
      rcases opts with _ | ⟨o, rest⟩
      · simp [AgLens.Resolves]
      · simp only [List.head?_cons, Option.map_some]
        exact List.mem_map_of_mem _ (List.mem_cons_self _ _)

/-- Helper: the implicit attachment target always resolves to an existing
decision (or is unset). -/
theorem lastDecisionTarget_resolves (c : AgLens.DesignCanvas) :
    AgLens.Resolves (AgLens.decIds c) (AgLens.lastDecisionTarget c) := by
  unfold AgLens.lastDecisionTarget
  rcases hf : c.decisions.reverse.find? (fun d => d.option_id == c.active_option_id)
    with _ | d
  · rcases hh : c.decisions.reverse.head? with _ | d0
    · simp only [hf, hh, Option.map_none]
      simp [AgLens.Resolves]
    · simp only [hf, hh, Option.map_some]
      have hd0 : d0 ∈ c.decisions := by
        rw [← List.mem_reverse]
        exact List.mem_of_mem_head? hh
      exact List.mem_map_of_mem _ hd0
  · simp only [hf]
    have hd : d ∈ c.decisions := by
      rw [← List.mem_reverse]
      exact List.mem_of_find?_eq_some hf
    exact List.mem_map_of_mem _ hd

/-- Helper: the merge engine always leaves a resolving active option — its
final step re-derives `active_option_id` over the final option list. -/
theorem activeOk_applyExtract (gen : Nat → String) (msgId : String)
    (e : AgLens.DesignExtract) (c : AgLens.DesignCanvas) :
    AgLens.ActiveOk (AgLens.applyExtractCanvas gen msgId e c) := by
  simp only [AgLens.applyExtractCanvas]
  exact ensureActive_resolves _ _

/-- Helper: both cycle-status active adjustments keep the active id resolving,
provided the target came from the option list. -/
theorem cycleActive1_resolves (options : List AgLens.OptionItem)
    (target : Option AgLens.OptionItem) (current : Option String)
    (htarget : ∀ t, target = some t → t ∈ options)
    (h : AgLens.Resolves (options.map (·.id)) current) :
    AgLens.Resolves (options.map (·.id)) (AgLens.cycleActive1 target current) := by
  rcases target with _ | t
  · exact h
  · simp only [AgLens.cycleActive1]
    split
    · exact List.mem_map_of_mem _ (htarget t rfl)
    · exact h

theorem cycleActive2_resolves (options : List AgLens.OptionItem)
    (target : Option AgLens.OptionItem) (a1 : Option String)
    (h : AgLens.Resolves (options.map (·.id)) a1) :
    AgLens.Resolves (options.map (·.id))
      (AgLens.cycleActive2 options target a1) := by
  rcases target with _ | t
  · exact h
  · simp only [AgLens.cycleActive2]
    split
    · rcases hq : options.find? (fun o => !(o.status == AgLens.OptionStatus.rejected))
        with _ | o
      · rw [hq]
        exact trivial
      · rw [hq]
        exact List.mem_map_of_mem _ (List.mem_of_find?_eq_some hq)
    · exact h

theorem rejectActive_resolves (options : List AgLens.OptionItem)
    (current : Option String) (optionId : String)
    (h : AgLens.Resolves (options.map (·.id)) current) :
    AgLens.Resolves (options.map (·.id))
      (AgLens.rejectActive options current optionId) := by
  unfold AgLens.rejectActive
  split
  · rcases hq : options.find? (fun o => !(o.status == AgLens.OptionStatus.rejected))
      with _ | o
    · rw [hq]
      exact trivial
    · rw [hq]
      exact List.mem_map_of_mem _ (List.mem_of_find?_eq_some hq)
  · exact h

/-- Helper: every store operation preserves "the active option is unset or
exists". -/
theorem activeOk_step (op : AgLens.CanvasOp) (c : AgLens.DesignCanvas)
    (h : AgLens.ActiveOk c) : AgLens.ActiveOk (AgLens.canvasStep op c) := by
  have hOptPatch : ∀ (id : String) (p : AgLens.OptionPatch) (o : AgLens.OptionItem),
      (if o.id == id then AgLens.applyOptionPatch p o else o).id = o.id := by
    intro id p o
    by_cases ho : (o.id == id) = true <;> simp [ho, AgLens.applyOptionPatch]
  cases op with
  | applyEx gen msgId e => exact activeOk_applyExtract gen msgId e c
  | addOption fresh => exact ensureActive_resolves _ _
  | updateOption id p =>
    unfold AgLens.ActiveOk AgLens.optIds at h ⊢
    unfold AgLens.canvasStep AgLens.updateOptionCanvas
    dsimp only
    rw [map_pres_eq _ _ (hOptPatch id p) c.options]
    exact h
  | deleteOption id => exact ensureActive_resolves _ _
  | reorderOption id dir =>
    unfold AgLens.ActiveOk AgLens.optIds at h ⊢
    exact resolves_perm _ (reorder_perm c.options _ dir).symm h
  | moveOption a b =>
    unfold AgLens.ActiveOk AgLens.optIds at h ⊢
    exact resolves_perm _ (moveById_perm _ c.options a b).symm h
  | cycleOptionStatus id =>
    unfold AgLens.ActiveOk AgLens.optIds at h ⊢
    unfold AgLens.canvasStep AgLens.cycleOptionStatusCanvas
    dsimp only
    have hids : ((c.options.map fun o =>
        if o.id == id then { o with status := AgLens.statusCycle o.status } else o).map
          (·.id)) = c.options.map (·.id) := by
      refine map_pres_eq _ _ (fun o => ?_) c.options
      by_cases ho : (o.id == id) = true <;> simp [ho]
    refine cycleActive2_resolves _ _ _ (cycleActive1_resolves _ _ _ ?_ ?_)
    · intro t hfind
      exact List.mem_of_find?_eq_some hfind
    · rw [hids]
      exact h
  | promoteToDecision fresh id =>
    unfold AgLens.canvasStep AgLens.promoteToDecisionCanvas
    rcases hfind : c.options.find? (fun o => o.id == id) with _ | o
    · simp only [hfind]
      exact h
    · simp only [hfind]
      unfold AgLens.ActiveOk AgLens.optIds
      dsimp only
      have hoid : o.id = id := by simpa using List.find?_some hfind
      have hids : ((c.options.map fun ob =>
          if ob.id == id then { ob with status := AgLens.OptionStatus.selected } else ob).map
            (·.id)) = c.options.map (·.id) := by
        refine map_pres_eq _ _ (fun ob => ?_) c.options
        by_cases hb : (ob.id == id) = true <;> simp [hb]
      rw [hids, ← hoid]
      exact List.mem_map_of_mem _ (List.mem_of_find?_eq_some hfind)
  | rejectOption id =>
    unfold AgLens.ActiveOk AgLens.optIds at h ⊢
    unfold AgLens.canvasStep AgLens.rejectOptionCanvas
    dsimp only
    have hids : ((c.options.map fun o =>
        if o.id == id then { o with status := AgLens.OptionStatus.rejected } else o).map
          (·.id)) = c.options.map (·.id) := by
      refine map_pres_eq _ _ (fun o => ?_) c.options
      by_cases ho : (o.id == id) = true <;> simp [ho]
    refine rejectActive_resolves _ _ _ ?_
    rw [hids]
    exact h
  | addDecision fresh => exact h
  | updateDecision id p => exact h
  | deleteDecision id => exact h
  | reorderDecision id dir => exact h
  | moveDecision a b => exact h
  | reopenDecision fresh id =>
    unfold AgLens.canvasStep AgLens.reopenDecisionCanvas
    rcases hfind : c.decisions.find? (fun d => d.id == id) with _ | d
    · simp only [hfind]
      exact h
    · simp only [hfind]
      unfold AgLens.ActiveOk AgLens.optIds
      dsimp only
      rw [List.map_append]
      exact List.mem_append_right _ (List.mem_singleton.mpr rfl)
  | addConstraint fresh => exact h
  | updateConstraint id p => exact h
  | deleteConstraint id => exact h
  | reorderConstraint id dir => exact h
  | moveConstraint a b => exact h
  | addQuestion fresh => exact h
  | updateQuestion id p => exact h
  | deleteQuestion id => exact h
  | reorderQuestion id dir => exact h
  | moveQuestion a b => exact h
  | toggleQuestionStatus id => exact h
  | addReference fresh kind label content => exact h
  | updateReference id p => exact h
  | deleteReference id => exact h
  | reorderReference id dir => exact h
  | moveReference a b => exact h
  | linkToDecision kind itemId decisionId => cases kind <;> exact h
  | dropText fresh target text src =>
    unfold AgLens.canvasStep AgLens.dropTextToCanvasCanvas
    dsimp only
    by_cases hdrop : AgLens.trimStr text = ""
    · rw [if_pos hdrop]
      exact h
    · rw [if_neg hdrop]
      cases target
      · exact h
      · exact ensureActive_resolves _ _
      · exact h
      · exact h
      · exact h
      · exact h
  | setActiveOption id =>
    unfold AgLens.ActiveOk AgLens.optIds at h ⊢
    unfold AgLens.canvasStep AgLens.setActiveOptionCanvas
    dsimp only
    split
    case _ hc =>
      obtain ⟨o, ho, hoid⟩ := List.any_eq_true.mp hc
      have : o.id = id := by simpa using hoid
      exact this ▸ List.mem_map_of_mem _ ho
    case _ => exact h
  | clearActiveOption => trivial
  | setProblemStatement content => exact h

/-- C2 counterexample: a canvas whose only option is rejected and whose
active id is unset satisfies the claimed invariant, yet applying an empty
extract re-derives `active_option_id` onto the rejected option — the final
re-derivation falls back to `options[0]` with no status restriction, so the
"considering or selected" part of the claim is false. -/
theorem c2_counterexample :
    ({ problem_statement := ""
       active_option_id := none
       options := [{ id := "r1", title := "SSE", description := "",
                     status := .rejected, source_messages := [] }]
       decisions := [], constraints := [], open_questions := [], references := []
       : AgLens.DesignCanvas }).active_option_id = none ∧
    (AgLens.applyExtractCanvas (fun _ => "g0") "m1" {}
        { problem_statement := ""
          active_option_id := none
          options := [{ id := "r1", title := "SSE", description := "",
                        status := .rejected, source_messages := [] }]
          decisions := [], constraints := [], open_questions := [],
          references := [] }).active_option_id = some "r1" ∧
    ∀ o ∈ (AgLens.applyExtractCanvas (fun _ => "g0") "m1" {}
        { problem_statement := ""
          active_option_id := none
          options := [{ id := "r1", title := "SSE", description := "",
                        status := .rejected, source_messages := [] }]
          decisions := [], constraints := [], open_questions := [],
          references := [] }).options,
      o.id = "r1" → o.status = AgLens.OptionStatus.rejected := by
  refine ⟨rfl, ?_, ?_⟩ <;> decide

/-- C2 amended: after every sequence of store transitions the active option id
is unset or names an existing option (with no restriction on that option's
status), and rejecting the currently active option re-derives the active id to
the first option whose post-update status is not `rejected` — whatever that
status is — or clears it when every option is rejected. -/
theorem c2_amended_active_resolves :
    (∀ (ops : List AgLens.CanvasOp) (c : AgLens.DesignCanvas),
      AgLens.ActiveOk c → AgLens.ActiveOk (AgLens.applyOps ops c)) ∧
    (∀ (c : AgLens.DesignCanvas) (oid : String),
      c.active_option_id = some oid →
      (AgLens.rejectOptionCanvas oid c).active_option_id =
        ((c.options.map fun o =>
            if o.id == oid then { o with status := AgLens.OptionStatus.rejected }
            else o).find?
          (fun o => !(o.status == AgLens.OptionStatus.rejected))).map (·.id)) := by
  constructor
  · intro ops
    induction ops with
    | nil => intro c h; exact h
    | cons op rest ih => intro c h; exact ih _ (activeOk_step op c h)
  · intro c oid hact
    unfold AgLens.rejectOptionCanvas AgLens.rejectActive
    dsimp only
    have hbeq : (c.active_option_id == some oid) = true := by
      rw [hact]
      exact beq_self_eq_true _
    rw [if_pos hbeq]

/-- Witness for the amended C2: a two-step trace keeps the invariant, and
rejecting the single active option clears the active id. -/
theorem c2_amended_active_resolves_witness :
    AgLens.ActiveOk (AgLens.applyOps
      [AgLens.CanvasOp.addOption "o1", AgLens.CanvasOp.rejectOption "o1"]
      AgLens.createEmptyCanvas) ∧
    (AgLens.rejectOptionCanvas "w1"
        { problem_statement := ""
          active_option_id := some "w1"
          options := [{ id := "w1", title := "A", description := "",
                        status := .considering, source_messages := [] }]
          decisions := [], constraints := [], open_questions := [],
          references := [] }).active_option_id = none := by
  constructor
  · exact c2_amended_active_resolves.1 _ AgLens.createEmptyCanvas (by decide)
  · have h := c2_amended_active_resolves.2
      { problem_statement := ""
        active_option_id := some "w1"
        options := [{ id := "w1", title := "A", description := "",
                      status := .considering, source_messages := [] }]
        decisions := [], constraints := [], open_questions := [],
        references := [] } "w1" rfl
    rw [h]
    decide

/-- Helper: resolution is stable under appending entities on the right. -/
theorem resolves_append {α : Type} (gid : α → String) (l l2 : List α)
    {r : Option String} (h : AgLens.Resolves (l.map gid) r) :
    AgLens.Resolves ((l ++ l2).map gid) r := by
  refine resolves_mono ?_ h
  intro a ha
  rw [List.map_append]
  exact List.mem_append_left _ ha

/-- Helper: an id survives `updateFirst` when the update keeps ids. -/
theorem map_mem_updateFirst {α β : Type} (p : α → Bool) (f : α → α) (g : α → β)
    (hpres : ∀ x, g (f x) = g x) (l : List α) (b : β) (hb : b ∈ l.map g) :
    b ∈ (AgLens.updateFirst p f l).map g := by
  rw [updateFirst_map_eq p f g hpres l]
  exact hb

/-- Helper: an id distinct from the deleted one survives the delete filter. -/
theorem mem_map_filter_of_ne {α : Type} (gid : α → String) (bad : String)
    (l : List α) (a : String) (ha : a ∈ l.map gid) (hne : a ≠ bad) :
    a ∈ (l.filter fun x => !(gid x == bad)).map gid := by
  obtain ⟨x, hx, rfl⟩ := List.mem_map.mp ha
  refine List.mem_map.mpr ⟨x, List.mem_filter.mpr ⟨hx, ?_⟩, rfl⟩
  simp [hne]

/-- Helper: the problem-statement merge stage keeps the invariant. -/
theorem inv_applyPsu (psu : Option String) (c : AgLens.DesignCanvas)
    (h : AgLens.CanvasInv c) : AgLens.CanvasInv (AgLens.applyPsu psu c) := by
  unfold AgLens.applyPsu
  rcases psu with _ | s
  · exact h
  · dsimp only
    split
    · exact h
    · exact h

/-- Helper: the new-options merge stage keeps the invariant. -/
theorem inv_newOptionsFold (gen : Nat → String) (msgId : String)
    (l : List AgLens.NewOptionE) (c : AgLens.DesignCanvas) (n : Nat)
    (h : AgLens.CanvasInv c) :
    AgLens.CanvasInv (AgLens.newOptionsFold gen msgId l (c, n)).1 := by
  induction l generalizing c n with
  | nil => exact h
  | cons o rest ih =>
    unfold AgLens.newOptionsFold
    dsimp only
    split
    · exact ih c n h
    · refine ih _ _ ?_
      unfold AgLens.CanvasInv AgLens.RefIntegrity AgLens.optIds AgLens.decIds
        AgLens.ActiveOk at h ⊢
      obtain ⟨⟨hd, hx, hq, hr⟩, ha⟩ := h
      dsimp only
      refine ⟨⟨?_, ?_, ?_, ?_⟩, ?_⟩
      · intro d hdm
        exact resolves_append _ c.options _ (hd d hdm)
      · intro x hxm
        exact hx x hxm
      · intro q hqm
        exact hq q hqm
      · intro r hrm
        exact hr r hrm
      · unfold AgLens.optIds
        dsimp only
        rw [List.map_append]
        split
        · exact resolves_mono (fun a ham => List.mem_append_left _ ham) ha
        · exact List.mem_append_right _ (List.mem_singleton.mpr rfl)


/-- Helper: the option-description merge stage keeps the invariant. -/
theorem inv_updOptionsFold (l : List AgLens.UpdateOptionE)
    (c : AgLens.DesignCanvas) (h : AgLens.CanvasInv c) :
    AgLens.CanvasInv (AgLens.updOptionsFold l c) := by
  induction l generalizing c with
  | nil => exact h
  | cons u rest ih =>
    unfold AgLens.updOptionsFold
    refine ih _ ?_
    rcases hf : c.options.find? (fun item => item.id == u.id) with _ | t
    · rw [hf]
      exact h
    · rw [hf]
      dsimp only
      by_cases hE : AgLens.trimStr u.description = ""
      · rw [if_pos hE]
        exact h
      · rw [if_neg hE]
        unfold AgLens.CanvasInv AgLens.RefIntegrity at h ⊢
        obtain ⟨⟨hd, hx, hq, hr⟩, ha⟩ := h
        refine ⟨⟨?_, ?_, ?_, ?_⟩, ?_⟩
        · intro d hdm
          unfold AgLens.optIds
          refine resolves_mono ?_ (hd d hdm)
          intro a ham
          refine map_mem_updateFirst _ _ _ ?_ c.options a ham
          exact fun x => rfl
        · intro x hxm
          exact hx x hxm
        · intro q hqm
          exact hq q hqm
        · intro r hrm
          exact hr r hrm
        · unfold AgLens.ActiveOk AgLens.optIds at ha ⊢
          refine resolves_mono ?_ ha
          intro a ham
          refine map_mem_updateFirst _ _ _ ?_ c.options a ham
          exact fun x => rfl

/-- Helper: the status-change merge stage keeps the invariant. -/
theorem inv_oscFold (msgId : String) (l : List AgLens.StatusChangeE)
    (c : AgLens.DesignCanvas) (h : AgLens.CanvasInv c) :
    AgLens.CanvasInv (AgLens.oscFold msgId l c) := by
  induction l generalizing c with
  | nil => exact h
  | cons ch rest ih =>
    unfold AgLens.oscFold
    refine ih _ ?_
    rcases hf : c.options.find?
        (fun item => AgLens.isNearDuplicate item.title ch.option_title) with _ | t
    · rw [hf]
      exact h
    · rw [hf]
      dsimp only
      unfold AgLens.CanvasInv AgLens.RefIntegrity at h ⊢
      obtain ⟨⟨hd, hx, hq, hr⟩, ha⟩ := h
      refine ⟨⟨?_, ?_, ?_, ?_⟩, ?_⟩
      · intro d hdm
        unfold AgLens.optIds
        refine resolves_mono ?_ (hd d hdm)
        intro a ham
        refine map_mem_updateFirst _ _ _ ?_ c.options a ham
        exact fun x => rfl
      · intro x hxm
        exact hx x hxm
      · intro q hqm
        exact hq q hqm
      · intro r hrm
        exact hr r hrm
      · unfold AgLens.ActiveOk AgLens.optIds at ha ⊢
        dsimp only
        by_cases hsel : ch.new_status = AgLens.OptionStatus.selected
        · rw [if_pos hsel]
          refine map_mem_updateFirst _ _ _ ?_ c.options t.id
            (List.mem_map_of_mem _ (List.mem_of_find?_eq_some hf))
          exact fun x => rfl
        · rw [if_neg hsel]
          refine resolves_mono ?_ ha
          intro a ham
          refine map_mem_updateFirst _ _ _ ?_ c.options a ham
          exact fun x => rfl

/-- Helper: the new-decisions merge stage keeps the invariant (the fresh
decision's `option_id` is the current active id, which resolves). -/
theorem inv_newDecisionsFold (gen : Nat → String) (msgId : String)
    (l : List AgLens.NewDecisionE) (c : AgLens.DesignCanvas) (n : Nat)
    (h : AgLens.CanvasInv c) :
    AgLens.CanvasInv (AgLens.newDecisionsFold gen msgId l (c, n)).1 := by
  induction l generalizing c n with
  | nil => exact h
  | cons d rest ih =>
    unfold AgLens.newDecisionsFold
    split
    · exact ih c n h
    · refine ih _ _ ?_
      unfold AgLens.CanvasInv AgLens.RefIntegrity at h ⊢
      obtain ⟨⟨hd, hx, hq, hr⟩, ha⟩ := h
      refine ⟨⟨?_, ?_, ?_, ?_⟩, ?_⟩
      · intro d' hdm
        rcases List.mem_append.mp hdm with h1 | h2
        · exact hd d' h1
        · rw [List.mem_singleton.mp h2]
          exact ha
      · intro x hxm
        unfold AgLens.decIds
        exact resolves_append _ c.decisions _ (hx x hxm)
      · intro q hqm
        unfold AgLens.decIds
        exact resolves_append _ c.decisions _ (hq q hqm)
      · intro r hrm
        unfold AgLens.decIds
        exact resolves_append _ c.decisions _ (hr r hrm)
      · exact ha

/-- Helper: the decision-update merge stage keeps the invariant (the update
touches only `reasoning`/`trade_offs`). -/
theorem inv_updDecisionsFold (l : List AgLens.UpdateDecisionE)
    (c : AgLens.DesignCanvas) (h : AgLens.CanvasInv c) :
    AgLens.CanvasInv (AgLens.updDecisionsFold l c) := by
  induction l generalizing c with
  | nil => exact h
  | cons u rest ih =>
    obtain ⟨uid, ur, uw, urep⟩ := u
    unfold AgLens.updDecisionsFold
    refine ih _ ?_
    dsimp only
    rcases hf : c.decisions.find? (fun item => item.id == uid) with _ | t
    · rw [hf]
      exact h
    · rw [hf]
      dsimp only
      unfold AgLens.CanvasInv AgLens.RefIntegrity at h ⊢
      obtain ⟨⟨hd, hx, hq, hr⟩, ha⟩ := h
      refine ⟨⟨?_, ?_, ?_, ?_⟩, ?_⟩
      · intro d' hdm
        rcases mem_updateFirst _ _ c.decisions d' hdm with h1 | ⟨y, hy, rfl⟩
        · exact hd d' h1
        · rcases ur with _ | r <;> rcases uw with _ | w <;> dsimp only <;>
            first
            | exact hd y hy
            | (split_ifs <;> exact hd y hy)
      · intro x hxm
        unfold AgLens.decIds
        refine resolves_mono ?_ (hx x hxm)
        intro a ham
        refine map_mem_updateFirst _ _ _ ?_ c.decisions a ham
        intro z
        rcases ur with _ | r <;> rcases uw with _ | w <;> dsimp only <;>
          first
          | rfl
          | (split_ifs <;> rfl)
      · intro q hqm
        unfold AgLens.decIds
        refine resolves_mono ?_ (hq q hqm)
        intro a ham
        refine map_mem_updateFirst _ _ _ ?_ c.decisions a ham
        intro z
        rcases ur with _ | r <;> rcases uw with _ | w <;> dsimp only <;>
          first
          | rfl
          | (split_ifs <;> rfl)
      · intro r' hrm
        unfold AgLens.decIds
        refine resolves_mono ?_ (hr r' hrm)
        intro a ham
        refine map_mem_updateFirst _ _ _ ?_ c.decisions a ham
        intro z
        rcases ur with _ | r <;> rcases uw with _ | w <;> dsimp only <;>
          first
          | rfl
          | (split_ifs <;> rfl)
      · exact ha

/-- Helper: the new-constraints merge stage keeps the invariant (the fresh
constraint attaches to `lastDecisionTarget`, which resolves). -/
theorem inv_newConstraintsFold (gen : Nat → String) (msgId : String)
    (l : List AgLens.NewConstraintE) (c : AgLens.DesignCanvas) (n : Nat)
    (h : AgLens.CanvasInv c) :
    AgLens.CanvasInv (AgLens.newConstraintsFold gen msgId l (c, n)).1 := by
  induction l generalizing c n with
  | nil => exact h
  | cons x rest ih =>
    unfold AgLens.newConstraintsFold
    split
    · exact ih c n h
    · refine ih _ _ ?_
      unfold AgLens.CanvasInv AgLens.RefIntegrity at h ⊢
      obtain ⟨⟨hd, hx, hq, hr⟩, ha⟩ := h
      refine ⟨⟨?_, ?_, ?_, ?_⟩, ?_⟩
      · intro d hdm
        exact hd d hdm
      · intro x' hxm
        rcases List.mem_append.mp hxm with h1 | h2
        · exact hx x' h1
        · rw [List.mem_singleton.mp h2]
          exact lastDecisionTarget_resolves c
      · intro q hqm
        exact hq q hqm
      · intro r hrm
        exact hr r hrm
      · exact ha

/-- Helper: the new-questions merge stage keeps the invariant. -/
theorem inv_newQuestionsFold (gen : Nat → String) (msgId : String)
    (l : List AgLens.NewQuestionE) (c : AgLens.DesignCanvas) (n : Nat)
    (h : AgLens.CanvasInv c) :
    AgLens.CanvasInv (AgLens.newQuestionsFold gen msgId l (c, n)).1 := by
  induction l generalizing c n with
  | nil => exact h
  | cons q0 rest ih =>
    unfold AgLens.newQuestionsFold
    split
    · exact ih c n h
    · refine ih _ _ ?_
      unfold AgLens.CanvasInv AgLens.RefIntegrity at h ⊢
      obtain ⟨⟨hd, hx, hq, hr⟩, ha⟩ := h
      refine ⟨⟨?_, ?_, ?_, ?_⟩, ?_⟩
      · intro d hdm
        exact hd d hdm
      · intro x hxm
        exact hx x hxm
      · intro q' hqm
        rcases List.mem_append.mp hqm with h1 | h2
        · exact hq q' h1
        · rw [List.mem_singleton.mp h2]
          exact lastDecisionTarget_resolves c
      · intro r hrm
        exact hr r hrm
      · exact ha

/-- Helper: the resolved-questions merge stage keeps the invariant (only
`status` is rewritten). -/
theorem inv_resolvedFold (l : List AgLens.ResolvedQuestionE)
    (c : AgLens.DesignCanvas) (h : AgLens.CanvasInv c) :
    AgLens.CanvasInv (AgLens.resolvedFold l c) := by
  induction l generalizing c with
  | nil => exact h
  | cons r rest ih =>
    unfold AgLens.resolvedFold
    refine ih _ ?_
    unfold AgLens.CanvasInv AgLens.RefIntegrity at h ⊢
    obtain ⟨⟨hd, hx, hq, hr⟩, ha⟩ := h
    refine ⟨⟨?_, ?_, ?_, ?_⟩, ?_⟩
    · intro d hdm
      exact hd d hdm
    · intro x hxm
      exact hx x hxm
    · intro q' hqm
      rcases mem_updateFirst _ _ c.open_questions q' hqm with h1 | ⟨y, hy, rfl⟩
      · exact hq q' h1
      · exact hq y hy
    · intro r' hrm
      exact hr r' hrm
    · exact ha

/-- Helper: the whole merge (`applyExtract`) keeps the invariant. -/
theorem inv_applyExtract (gen : Nat → String) (msgId : String)
    (e : AgLens.DesignExtract) (c : AgLens.DesignCanvas)
    (h : AgLens.CanvasInv c) :
    AgLens.CanvasInv (AgLens.applyExtractCanvas gen msgId e c) := by
  unfold AgLens.applyExtractCanvas
  refine ⟨?_, ensureActive_resolves _ _⟩
  exact (inv_resolvedFold _ _ (inv_newQuestionsFold gen msgId _ _ _
    (inv_newConstraintsFold gen msgId _ _ _ (inv_updDecisionsFold _ _
      (inv_newDecisionsFold gen msgId _ _ _ (inv_oscFold msgId _ _
        (inv_updOptionsFold _ _ (inv_newOptionsFold gen msgId _ _ _
          (inv_applyPsu _ _ h))))))))).1

/-- Helper: every merge/manual operation whose link target exists (trivial for
all operations except `linkToDecision`) preserves referential integrity
together with active-option existence. -/
theorem inv_step (op : AgLens.CanvasOp) (c : AgLens.DesignCanvas)
    (hm : AgLens.isMergeOrManual op = true) (hs : AgLens.opSafe op c)
    (h : AgLens.CanvasInv c) : AgLens.CanvasInv (AgLens.canvasStep op c) := by
  unfold AgLens.CanvasInv AgLens.RefIntegrity at h
  obtain ⟨⟨hd, hx, hq, hr⟩, ha⟩ := h
  cases op with
  | applyEx gen msgId e => exact inv_applyExtract gen msgId e c ⟨⟨hd, hx, hq, hr⟩, ha⟩
  | addOption fresh =>
    refine ⟨⟨?_, ?_, ?_, ?_⟩, activeOk_step _ c ha⟩
    · intro d hdm
      exact resolves_append _ c.options _ (hd d hdm)
    · intro x hxm
      exact hx x hxm
    · intro q hqm
      exact hq q hqm
    · intro r hrm
      exact hr r hrm
  | updateOption id p =>
    have hOptPatch : ∀ o : AgLens.OptionItem,
        (if o.id == id then AgLens.applyOptionPatch p o else o).id = o.id := by
      intro o
      by_cases hb : (o.id == id) = true <;> simp [hb, AgLens.applyOptionPatch]
    refine ⟨⟨?_, ?_, ?_, ?_⟩, activeOk_step _ c ha⟩
    · intro d hdm
      refine resolves_mono ?_ (hd d hdm)
      intro a ham
      obtain ⟨o, ho, rfl⟩ := List.mem_map.mp ham
      exact List.mem_map.mpr ⟨_, List.mem_map.mpr ⟨o, ho, rfl⟩, hOptPatch o⟩
    · intro x hxm
      exact hx x hxm
    · intro q hqm
      exact hq q hqm
    · intro r hrm
      exact hr r hrm
  | deleteOption id =>
    have hDelDec : ∀ d : AgLens.Decision,
        (if d.option_id == some id then { d with option_id := none } else d).id
          = d.id := by
      intro d
      by_cases hb : (d.option_id == some id) = true <;> simp [hb]
    have htrans : ∀ a ∈ AgLens.decIds c,
        a ∈ (c.decisions.map (fun d =>
          if d.option_id == some id then { d with option_id := none } else d)).map
            (fun d => d.id) := by
      intro a ham
      obtain ⟨dd, hdd, rfl⟩ := List.mem_map.mp ham
      exact List.mem_map.mpr ⟨_, List.mem_map.mpr ⟨dd, hdd, rfl⟩, hDelDec dd⟩
    refine ⟨⟨?_, ?_, ?_, ?_⟩, activeOk_step _ c ha⟩
    · intro d' hdm
      obtain ⟨d, hdmem, rfl⟩ := List.mem_map.mp hdm
      by_cases hcond : (d.option_id == some id) = true
      · rw [if_pos hcond]
        exact trivial
      · rw [if_neg hcond]
        rcases hoid : d.option_id with _ | a
        · exact trivial
        · have haid : a ≠ id := by
            rw [hoid] at hcond
            intro hcontra
            rw [hcontra] at hcond
            simp at hcond
          have ham : a ∈ AgLens.optIds c := by
            have hres := hd d hdmem
            rw [hoid] at hres
            exact hres
          exact mem_map_filter_of_ne _ id c.options a ham haid
    · intro x' hxm
      obtain ⟨x, hxmem, rfl⟩ := List.mem_map.mp hxm
      by_cases hcond : AgLens.strTruthy x.decision_id = true ∧
          (x.decision_id == some id) = true
      · rw [if_pos hcond]
        exact trivial
      · rw [if_neg hcond]
        exact resolves_mono htrans (hx x hxmem)
    · intro q' hqm
      obtain ⟨q, hqmem, rfl⟩ := List.mem_map.mp hqm
      by_cases hcond : AgLens.strTruthy q.decision_id = true ∧
          (q.decision_id == some id) = true
      · rw [if_pos hcond]
        exact trivial
      · rw [if_neg hcond]
        exact resolves_mono htrans (hq q hqmem)
    · intro r' hrm
      obtain ⟨r, hrmem, rfl⟩ := List.mem_map.mp hrm
      by_cases hcond : AgLens.strTruthy r.decision_id = true ∧
          (r.decision_id == some id) = true
      · rw [if_pos hcond]
        exact trivial
      · rw [if_neg hcond]
        exact resolves_mono htrans (hr r hrmem)
  | reorderOption id dir =>
    refine ⟨⟨?_, ?_, ?_, ?_⟩, activeOk_step _ c ha⟩
    · intro d hdm
      exact resolves_perm _ (reorder_perm c.options _ dir).symm (hd d hdm)
    · intro x hxm
      exact hx x hxm
    · intro q hqm
      exact hq q hqm
    · intro r hrm
      exact hr r hrm
  | moveOption a b =>
    refine ⟨⟨?_, ?_, ?_, ?_⟩, activeOk_step _ c ha⟩
    · intro d hdm
      exact resolves_perm _ (moveById_perm _ c.options a b).symm (hd d hdm)
    · intro x hxm
      exact hx x hxm
    · intro q hqm
      exact hq q hqm
    · intro r hrm
      exact hr r hrm
  | addDecision fresh =>
    refine ⟨⟨?_, ?_, ?_, ?_⟩, activeOk_step _ c ha⟩
    · intro d' hdm
      rcases List.mem_append.mp hdm with h1 | h2
      · exact hd d' h1
      · rw [List.mem_singleton.mp h2]
        exact ha
    · intro x hxm
      exact resolves_append _ c.decisions _ (hx x hxm)
    · intro q hqm
      exact resolves_append _ c.decisions _ (hq q hqm)
    · intro r hrm
      exact resolves_append _ c.decisions _ (hr r hrm)
  | updateDecision id p =>
    have hsafe : AgLens.refSetOk (AgLens.optIds c) p.option_id := hs
    have hDecPatchId : ∀ d : AgLens.Decision,
        (if d.id == id then AgLens.applyDecisionPatch p d else d).id = d.id := by
      intro d
      by_cases hb : (d.id == id) = true <;> simp [hb, AgLens.applyDecisionPatch]
    have htrans : ∀ a ∈ AgLens.decIds c,
        a ∈ (c.decisions.map (fun d =>
          if d.id == id then AgLens.applyDecisionPatch p d else d)).map
            (fun d => d.id) := by
      intro a ham
      obtain ⟨dd, hdd, rfl⟩ := List.mem_map.mp ham
      exact List.mem_map.mpr ⟨_, List.mem_map.mpr ⟨dd, hdd, rfl⟩, hDecPatchId dd⟩
    refine ⟨⟨?_, ?_, ?_, ?_⟩, activeOk_step _ c ha⟩
    · intro d' hdm
      obtain ⟨d, hdmem, rfl⟩ := List.mem_map.mp hdm
      by_cases hb : (d.id == id) = true
      · rw [if_pos hb]
        have hval : (AgLens.applyDecisionPatch p d).option_id
            = p.option_id.getD d.option_id := rfl
        rw [hval]
        rcases hpo : p.option_id with _ | r
        · try rw [hpo]
          exact hd d hdmem
        · rw [hpo] at hsafe
          try rw [hpo]
          exact hsafe
      · rw [if_neg hb]
        exact hd d hdmem
    · intro x hxm
      exact resolves_mono htrans (hx x hxm)
    · intro q hqm
      exact resolves_mono htrans (hq q hqm)
    · intro r hrm
      exact resolves_mono htrans (hr r hrm)
  | deleteDecision id =>
    refine ⟨⟨?_, ?_, ?_, ?_⟩, activeOk_step _ c ha⟩
    · intro d hdm
      exact hd d (List.mem_filter.mp hdm).1
    · intro x' hxm
      obtain ⟨x, hxmem, rfl⟩ := List.mem_map.mp hxm
      by_cases hcond : (x.decision_id == some id) = true
      · rw [if_pos hcond]
        exact trivial
      · rw [if_neg hcond]
        rcases hdid : x.decision_id with _ | a
        · exact trivial
        · have haid : a ≠ id := by
            rw [hdid] at hcond
            intro hcontra
            rw [hcontra] at hcond
            simp at hcond
          have ham : a ∈ AgLens.decIds c := by
            have hres := hx x hxmem
            rw [hdid] at hres
            exact hres
          exact mem_map_filter_of_ne _ id c.decisions a ham haid
    · intro q' hqm
      obtain ⟨q, hqmem, rfl⟩ := List.mem_map.mp hqm
      by_cases hcond : (q.decision_id == some id) = true
      · rw [if_pos hcond]
        exact trivial
      · rw [if_neg hcond]
        rcases hdid : q.decision_id with _ | a
        · exact trivial
        · have haid : a ≠ id := by
            rw [hdid] at hcond
            intro hcontra
            rw [hcontra] at hcond
            simp at hcond
          have ham : a ∈ AgLens.decIds c := by
            have hres := hq q hqmem
            rw [hdid] at hres
            exact hres
          exact mem_map_filter_of_ne _ id c.decisions a ham haid
    · intro r' hrm
      obtain ⟨r, hrmem, rfl⟩ := List.mem_map.mp hrm
      by_cases hcond : (r.decision_id == some id) = true
      · rw [if_pos hcond]
        exact trivial
      · rw [if_neg hcond]
        rcases hdid : r.decision_id with _ | a
        · exact trivial
        · have haid : a ≠ id := by
            rw [hdid] at hcond
            intro hcontra
            rw [hcontra] at hcond
            simp at hcond
          have ham : a ∈ AgLens.decIds c := by
            have hres := hr r hrmem
            rw [hdid] at hres
            exact hres
          exact mem_map_filter_of_ne _ id c.decisions a ham haid
  | reorderDecision id dir =>
    refine ⟨⟨?_, ?_, ?_, ?_⟩, activeOk_step _ c ha⟩
    · intro d hdm
      exact hd d ((reorder_perm c.decisions _ dir).mem_iff.mp hdm)
    · intro x hxm
      exact resolves_perm _ (reorder_perm c.decisions _ dir).symm (hx x hxm)
    · intro q hqm
      exact resolves_perm _ (reorder_perm c.decisions _ dir).symm (hq q hqm)
    · intro r hrm
      exact resolves_perm _ (reorder_perm c.decisions _ dir).symm (hr r hrm)
  | moveDecision a b =>
    refine ⟨⟨?_, ?_, ?_, ?_⟩, activeOk_step _ c ha⟩
    · intro d hdm
      exact hd d ((moveById_perm _ c.decisions a b).mem_iff.mp hdm)
    · intro x hxm
      exact resolves_perm _ (moveById_perm _ c.decisions a b).symm (hx x hxm)
    · intro q hqm
      exact resolves_perm _ (moveById_perm _ c.decisions a b).symm (hq q hqm)
    · intro r hrm
      exact resolves_perm _ (moveById_perm _ c.decisions a b).symm (hr r hrm)
  | addConstraint fresh =>
    refine ⟨⟨?_, ?_, ?_, ?_⟩, activeOk_step _ c ha⟩
    · intro d hdm
      exact hd d hdm
    · intro x' hxm
      rcases List.mem_append.mp hxm with h1 | h2
      · exact hx x' h1
      · rw [List.mem_singleton.mp h2]
        exact lastDecisionTarget_resolves c
    · intro q hqm
      exact hq q hqm
    · intro r hrm
      exact hr r hrm
  | updateConstraint id p =>
    have hsafe : AgLens.refSetOk (AgLens.decIds c) p.decision_id := hs
    refine ⟨⟨?_, ?_, ?_, ?_⟩, activeOk_step _ c ha⟩
    · intro d hdm
      exact hd d hdm
    · intro x' hxm
      obtain ⟨x, hxmem, rfl⟩ := List.mem_map.mp hxm
      by_cases hb : (x.id == id) = true
      · rw [if_pos hb]
        have hval : (AgLens.applyConstraintPatch p x).decision_id
            = p.decision_id.getD x.decision_id := rfl
        rw [hval]
        rcases hpo : p.decision_id with _ | r
        · try rw [hpo]
          exact hx x hxmem
        · rw [hpo] at hsafe
          try rw [hpo]
          exact hsafe
      · rw [if_neg hb]
        exact hx x hxmem
    · intro q hqm
      exact hq q hqm
    · intro r hrm
      exact hr r hrm
  | deleteConstraint id =>
    refine ⟨⟨?_, ?_, ?_, ?_⟩, activeOk_step _ c ha⟩
    · intro d hdm
      exact hd d hdm
    · intro x hxm
      exact hx x (List.mem_filter.mp hxm).1
    · intro q hqm
      exact hq q hqm
    · intro r hrm
      exact hr r hrm
  | reorderConstraint id dir =>
    refine ⟨⟨?_, ?_, ?_, ?_⟩, activeOk_step _ c ha⟩
    · intro d hdm
      exact hd d hdm
    · intro x hxm
      exact hx x ((reorder_perm c.constraints _ dir).mem_iff.mp hxm)
    · intro q hqm
      exact hq q hqm
    · intro r hrm
      exact hr r hrm
  | moveConstraint a b =>
    refine ⟨⟨?_, ?_, ?_, ?_⟩, activeOk_step _ c ha⟩
    · intro d hdm
      exact hd d hdm
    · intro x hxm
      exact hx x ((moveById_perm _ c.constraints a b).mem_iff.mp hxm)
    · intro q hqm
      exact hq q hqm
    · intro r hrm
      exact hr r hrm
  | addQuestion fresh =>
    refine ⟨⟨?_, ?_, ?_, ?_⟩, activeOk_step _ c ha⟩
    · intro d hdm
      exact hd d hdm
    · intro x hxm
      exact hx x hxm
    · intro q' hqm
      rcases List.mem_append.mp hqm with h1 | h2
      · exact hq q' h1
      · rw [List.mem_singleton.mp h2]
        exact lastDecisionTarget_resolves c
    · intro r hrm
      exact hr r hrm
  | updateQuestion id p =>
    have hsafe : AgLens.refSetOk (AgLens.decIds c) p.decision_id := hs
    refine ⟨⟨?_, ?_, ?_, ?_⟩, activeOk_step _ c ha⟩
    · intro d hdm
      exact hd d hdm
    · intro x hxm
      exact hx x hxm
    · intro q' hqm
      obtain ⟨q, hqmem, rfl⟩ := List.mem_map.mp hqm
      by_cases hb : (q.id == id) = true
      · rw [if_pos hb]
        have hval : (AgLens.applyQuestionPatch p q).decision_id
            = p.decision_id.getD q.decision_id := rfl
        rw [hval]
        rcases hpo : p.decision_id with _ | r
        · try rw [hpo]
          exact hq q hqmem
        · rw [hpo] at hsafe
          try rw [hpo]
          exact hsafe
      · rw [if_neg hb]
        exact hq q hqmem
    · intro r hrm
      exact hr r hrm
  | deleteQuestion id =>
    refine ⟨⟨?_, ?_, ?_, ?_⟩, activeOk_step _ c ha⟩
    · intro d hdm
      exact hd d hdm
    · intro x hxm
      exact hx x hxm
    · intro q hqm
      exact hq q (List.mem_filter.mp hqm).1
    · intro r hrm
      exact hr r hrm
  | reorderQuestion id dir =>
    refine ⟨⟨?_, ?_, ?_, ?_⟩, activeOk_step _ c ha⟩
    · intro d hdm
      exact hd d hdm
    · intro x hxm
      exact hx x hxm
    · intro q hqm
      exact hq q ((reorder_perm c.open_questions _ dir).mem_iff.mp hqm)
    · intro r hrm
      exact hr r hrm
  | moveQuestion a b =>
    refine ⟨⟨?_, ?_, ?_, ?_⟩, activeOk_step _ c ha⟩
    · intro d hdm
      exact hd d hdm
    · intro x hxm
      exact hx x hxm
    · intro q hqm
      exact hq q ((moveById_perm _ c.open_questions a b).mem_iff.mp hqm)
    · intro r hrm
      exact hr r hrm
  | addReference fresh kind label content =>
    refine ⟨⟨?_, ?_, ?_, ?_⟩, activeOk_step _ c ha⟩
    · intro d hdm
      exact hd d hdm
    · intro x hxm
      exact hx x hxm
    · intro q hqm
      exact hq q hqm
    · intro r' hrm
      rcases List.mem_append.mp hrm with h1 | h2
      · exact hr r' h1
      · rw [List.mem_singleton.mp h2]
        exact lastDecisionTarget_resolves c
  | updateReference id p =>
    have hsafe : AgLens.refSetOk (AgLens.decIds c) p.decision_id := hs
    refine ⟨⟨?_, ?_, ?_, ?_⟩, activeOk_step _ c ha⟩
    · intro d hdm
      exact hd d hdm
    · intro x hxm
      exact hx x hxm
    · intro q hqm
      exact hq q hqm
    · intro r' hrm
      obtain ⟨r, hrmem, rfl⟩ := List.mem_map.mp hrm
      by_cases hb : (r.id == id) = true
      · rw [if_pos hb]
        have hval : (AgLens.applyReferencePatch p r).decision_id
            = p.decision_id.getD r.decision_id := rfl
        rw [hval]
        rcases hpo : p.decision_id with _ | r0
        · try rw [hpo]
          exact hr r hrmem
        · rw [hpo] at hsafe
          try rw [hpo]
          exact hsafe
      · rw [if_neg hb]
        exact hr r hrmem
  | deleteReference id =>
    refine ⟨⟨?_, ?_, ?_, ?_⟩, activeOk_step _ c ha⟩
    · intro d hdm
      exact hd d hdm
    · intro x hxm
      exact hx x hxm
    · intro q hqm
      exact hq q hqm
    · intro r hrm
      exact hr r (List.mem_filter.mp hrm).1
  | reorderReference id dir =>
    refine ⟨⟨?_, ?_, ?_, ?_⟩, activeOk_step _ c ha⟩
    · intro d hdm
      exact hd d hdm
    · intro x hxm
      exact hx x hxm
    · intro q hqm
      exact hq q hqm
    · intro r hrm
      exact hr r ((reorder_perm c.references _ dir).mem_iff.mp hrm)
  | moveReference a b =>
    refine ⟨⟨?_, ?_, ?_, ?_⟩, activeOk_step _ c ha⟩
    · intro d hdm
      exact hd d hdm
    · intro x hxm
      exact hx x hxm
    · intro q hqm
      exact hq q hqm
    · intro r hrm
      exact hr r ((moveById_perm _ c.references a b).mem_iff.mp hrm)
  | linkToDecision kind itemId decisionId =>
    have hsafe : decisionId ∈ AgLens.decIds c := hs
    cases kind with
    | constraint =>
      refine ⟨⟨?_, ?_, ?_, ?_⟩, activeOk_step _ c ha⟩
      · intro d hdm
        exact hd d hdm
      · intro x' hxm
        obtain ⟨x, hxmem, rfl⟩ := List.mem_map.mp hxm
        by_cases hcond : (x.id == itemId) = true
        · rw [if_pos hcond]
          exact hsafe
        · rw [if_neg hcond]
          exact hx x hxmem
      · intro q hqm
        exact hq q hqm
      · intro r hrm
        exact hr r hrm
    | question =>
      refine ⟨⟨?_, ?_, ?_, ?_⟩, activeOk_step _ c ha⟩
      · intro d hdm
        exact hd d hdm
      · intro x hxm
        exact hx x hxm
      · intro q' hqm
        obtain ⟨q, hqmem, rfl⟩ := List.mem_map.mp hqm
        by_cases hcond : (q.id == itemId) = true
        · rw [if_pos hcond]
          exact hsafe
        · rw [if_neg hcond]
          exact hq q hqmem
      · intro r hrm
        exact hr r hrm
    | reference =>
      refine ⟨⟨?_, ?_, ?_, ?_⟩, activeOk_step _ c ha⟩
      · intro d hdm
        exact hd d hdm
      · intro x hxm
        exact hx x hxm
      · intro q hqm
        exact hq q hqm
      · intro r' hrm
        obtain ⟨r, hrmem, rfl⟩ := List.mem_map.mp hrm
        by_cases hcond : (r.id == itemId) = true
        · rw [if_pos hcond]
          exact hsafe
        · rw [if_neg hcond]
          exact hr r hrmem
  | cycleOptionStatus id => simp [AgLens.isMergeOrManual] at hm
  | promoteToDecision fresh id => simp [AgLens.isMergeOrManual] at hm
  | rejectOption id => simp [AgLens.isMergeOrManual] at hm
  | reopenDecision fresh id => simp [AgLens.isMergeOrManual] at hm
  | toggleQuestionStatus id => simp [AgLens.isMergeOrManual] at hm
  | dropText fresh target text src => simp [AgLens.isMergeOrManual] at hm
  | setActiveOption id => simp [AgLens.isMergeOrManual] at hm
  | clearActiveOption => simp [AgLens.isMergeOrManual] at hm
  | setProblemStatement content => simp [AgLens.isMergeOrManual] at hm

/-- Helper: referential integrity and active-option existence hold after any
safe trace of merge/manual operations. -/
theorem inv_applyOps (ops : List AgLens.CanvasOp) (c : AgLens.DesignCanvas)
    (hops : AgLens.OpsOk ops c) (h : AgLens.CanvasInv c) :
    AgLens.CanvasInv (AgLens.applyOps ops c) := by
  induction ops generalizing c with
  | nil => exact h
  | cons op rest ih =>
    obtain ⟨hm, hsafe, hrest⟩ := (hops : _ ∧ _ ∧ _)
    exact ih (AgLens.canvasStep op c) hrest (inv_step op c hm hsafe h)

/-- C1 counterexample, in two halves.  First: on a canvas holding one
unlinked constraint and no decisions — which satisfies the
referential-integrity invariant — the claimed manual operation
`linkToDecision` aimed at a non-existent decision id sets the link anyway:
the result violates referential integrity and is not a no-op, so the claim's
re-validation sentence is false.  Second: the `Partial<T>` edits also
establish references without validation — on a canvas with one option and a
decision linked to it, the two-step trace "delete the option, then edit the
decision's `option_id` back to the deleted id" (both operations in the
claim's manual list, no link involved) leaves a dangling reference, so the
invariant is not preserved by the claimed operation set. -/
theorem c1_counterexample :
    AgLens.CanvasInv
      { problem_statement := "", active_option_id := none, options := [],
        decisions := [],
        constraints := [{ id := "c1", description := "Must run on-prem",
                          source := .conversation, decision_id := none,
                          source_messages := [] }],
        open_questions := [], references := [] } ∧
    AgLens.isMergeOrManual
      (AgLens.CanvasOp.linkToDecision .constraint "c1" "ghost") = true ∧
    ¬ AgLens.RefIntegrity
        (AgLens.canvasStep (AgLens.CanvasOp.linkToDecision .constraint "c1" "ghost")
          { problem_statement := "", active_option_id := none, options := [],
            decisions := [],
            constraints := [{ id := "c1", description := "Must run on-prem",
                              source := .conversation, decision_id := none,
                              source_messages := [] }],
            open_questions := [], references := [] }) ∧
    AgLens.canvasStep (AgLens.CanvasOp.linkToDecision .constraint "c1" "ghost")
        { problem_statement := "", active_option_id := none, options := [],
          decisions := [],
          constraints := [{ id := "c1", description := "Must run on-prem",
                            source := .conversation, decision_id := none,
                            source_messages := [] }],
          open_questions := [], references := [] } ≠
      { problem_statement := "", active_option_id := none, options := [],
        decisions := [],
        constraints := [{ id := "c1", description := "Must run on-prem",
                          source := .conversation, decision_id := none,
                          source_messages := [] }],
        open_questions := [], references := [] } ∧
    AgLens.isMergeOrManual (AgLens.CanvasOp.deleteOption "o1") = true ∧
    AgLens.isMergeOrManual
      (AgLens.CanvasOp.updateDecision "d1"
        { option_id := some (some "o1") }) = true ∧
    AgLens.CanvasInv
      { problem_statement := "", active_option_id := some "o1",
        options := [{ id := "o1", title := "Use SSE", description := "",
                      status := .considering, source_messages := [] }],
        decisions := [{ id := "d1", title := "Use SSE", reasoning := "",
                        trade_offs := "", option_id := some "o1",
                        source_messages := [] }],
        constraints := [], open_questions := [], references := [] } ∧
    ¬ AgLens.RefIntegrity (AgLens.applyOps
        [AgLens.CanvasOp.deleteOption "o1",
         AgLens.CanvasOp.updateDecision "d1" { option_id := some (some "o1") }]
        { problem_statement := "", active_option_id := some "o1",
          options := [{ id := "o1", title := "Use SSE", description := "",
                        status := .considering, source_messages := [] }],
          decisions := [{ id := "d1", title := "Use SSE", reasoning := "",
                          trade_offs := "", option_id := some "o1",
                          source_messages := [] }],
          constraints := [], open_questions := [], references := [] }) := by
  refine ⟨by decide, rfl, by decide, by decide, rfl, rfl, by decide, by decide⟩

/-- C1 amended: for every canvas satisfying referential integrity plus
active-option existence and every sequence of merge (`applyExtract`) and
manual add/edit/delete/reorder/link/move operations in which each established
reference — a `linkToDecision` target, or a `option_id`/`decision_id` entry
patched in by an edit — is absent, explicitly cleared, or names an entity
that exists at the moment the operation runs, every non-null
`option_id`/`decision_id` reference in the resulting canvas resolves to an
existing entity.  (Both existence side conditions are needed: neither
`linkToDecision` nor the `Partial<T>` edits perform any re-validation, as the
counterexample shows.) -/
theorem c1_amended_ref_integrity (ops : List AgLens.CanvasOp)
    (c : AgLens.DesignCanvas) (hops : AgLens.OpsOk ops c)
    (h : AgLens.CanvasInv c) : AgLens.CanvasInv (AgLens.applyOps ops c) :=
  inv_applyOps ops c hops h

/-- Witness for the amended C1: a concrete five-step trace — add an option,
add a decision, link the existing constraint to that decision, reparent the
decision onto the option through a `Partial<Decision>` edit, add another
constraint — is safe and keeps referential integrity. -/
theorem c1_amended_ref_integrity_witness :
    AgLens.OpsOk
      [AgLens.CanvasOp.addOption "o1", AgLens.CanvasOp.addDecision "d1",
       AgLens.CanvasOp.linkToDecision .constraint "k1" "d1",
       AgLens.CanvasOp.updateDecision "d1" { option_id := some (some "o1") },
       AgLens.CanvasOp.addConstraint "k2"]
      { problem_statement := "", active_option_id := none, options := [],
        decisions := [],
        constraints := [{ id := "k1", description := "Latency below 100ms",
                          source := .conversation, decision_id := none,
                          source_messages := [] }],
        open_questions := [], references := [] } ∧
    AgLens.CanvasInv
      { problem_statement := "", active_option_id := none, options := [],
        decisions := [],
        constraints := [{ id := "k1", description := "Latency below 100ms",
                          source := .conversation, decision_id := none,
                          source_messages := [] }],
        open_questions := [], references := [] } ∧
    AgLens.CanvasInv (AgLens.applyOps
      [AgLens.CanvasOp.addOption "o1", AgLens.CanvasOp.addDecision "d1",
       AgLens.CanvasOp.linkToDecision .constraint "k1" "d1",
       AgLens.CanvasOp.updateDecision "d1" { option_id := some (some "o1") },
       AgLens.CanvasOp.addConstraint "k2"]
      { problem_statement := "", active_option_id := none, options := [],
        decisions := [],
        constraints := [{ id := "k1", description := "Latency below 100ms",
                          source := .conversation, decision_id := none,
                          source_messages := [] }],
        open_questions := [], references := [] }) := by
  refine ⟨by decide, by decide, c1_amended_ref_integrity _ _ (by decide) (by decide)⟩
